import Mathlib

/-!
Shallow embedding of the dense-matrix multiplication engine in
`src/hw4/WarClans612/_matrix.cpp` and proofs of the specified properties.

Modelling conventions:
* `double` values are modelled as rationals (`ℚ`): the claims under scrutiny are
  stated under exact arithmetic, and the source only adds and multiplies.
* `std::vector<double>::at` throws `std::out_of_range` when the flat index is
  outside the buffer; it is modelled as an `Except`-valued access that fails
  with `MatError.indexOutOfRange` in exactly that case.
* `validate_multiplication` throws (`std::out_of_range` with a shape message);
  the spec calls that condition ShapeMismatch, modelled as
  `MatError.shapeMismatch`.
* Imperative loops become `List.foldlM` over the same index ranges, threading
  the mutated object through the fold; a thrown exception aborts the whole
  call, which `Except` mirrors.
* Negative pad amounts and non-positive tile sizes are undefined behaviour in
  the source (signed/unsigned mixing, division by zero); the embedding uses
  `Nat` parameters and the theorems assume `1 ≤ tsize`, as the spec does.
-/

namespace Hw4

/-- The two error conditions of the engine: the shape-validation failure and
the checked-access failure. In the source both surface as thrown
`std::out_of_range` exceptions, distinguished by their origin. -/
inductive MatError where
  | shapeMismatch
  | indexOutOfRange
deriving DecidableEq, Repr

/-- `class Matrix`: row/column counts plus a row-major flat buffer. -/
structure Matrix where
  m_nrow : Nat
  m_ncol : Nat
  m_buffer : List ℚ
deriving DecidableEq, Repr

/-- The documented invariant: `buffer.length == rows*cols`. -/
def Matrix.wf (m : Matrix) : Prop := m.m_buffer.length = m.m_nrow * m.m_ncol

instance (m : Matrix) : Decidable m.wf :=
  inferInstanceAs (Decidable (m.m_buffer.length = m.m_nrow * m.m_ncol))

/-- `Matrix::index(row, col) = row*m_ncol + col`. -/
def Matrix.index (m : Matrix) (row col : Nat) : Nat := row * m.m_ncol + col

/-- `double operator()(size_t idx) const`, i.e. `m_buffer.at(idx)`: fails with
`IndexOutOfRange` exactly when `idx` is outside the buffer. -/
def Matrix.atF (m : Matrix) (idx : Nat) : Except MatError ℚ :=
  match m.m_buffer[idx]? with
  | some v => .ok v
  | none => .error .indexOutOfRange

/-- `double operator()(size_t row, size_t col) const`:
`m_buffer.at(index(row, col))`. -/
def Matrix.at2 (m : Matrix) (row col : Nat) : Except MatError ℚ :=
  m.atF (m.index row col)

/-- Writing through the checked reference `m_buffer.at(idx) = v`. -/
def Matrix.setF (m : Matrix) (idx : Nat) (v : ℚ) : Except MatError Matrix :=
  if idx < m.m_buffer.length then .ok { m with m_buffer := m.m_buffer.set idx v }
  else .error .indexOutOfRange

/-- Writing through the checked reference at `(row, col)`. -/
def Matrix.set2 (m : Matrix) (row col : Nat) (v : ℚ) : Except MatError Matrix :=
  m.setF (m.index row col) v

/-- `m_buffer.at(idx) += v`: checked read followed by a write to the same
cell. -/
def Matrix.addF (m : Matrix) (idx : Nat) (v : ℚ) : Except MatError Matrix := do
  let old ← m.atF idx
  m.setF idx (old + v)

/-- `Matrix::Matrix(size_t nrow, size_t ncol)`: zero-filled buffer of
`nrow*ncol` doubles. -/
def Matrix.ofSize (nrow ncol : Nat) : Matrix :=
  { m_nrow := nrow, m_ncol := ncol, m_buffer := List.replicate (nrow * ncol) 0 }

/-- `Matrix::Matrix(Matrix const &other, int x_pad, int y_pad)` (lines 64-75):
dimensions grow by the pad amounts; every cell of the new buffer is written in
row-major order, copying `other` inside its bounds (a checked read of
`other.m_buffer`) and writing zero in the padding stripes. -/
def Matrix.padded (other : Matrix) (x_pad y_pad : Nat) : Except MatError Matrix := do
  let nrow := other.m_nrow + x_pad
  let ncol := other.m_ncol + y_pad
  let buf ← (List.range nrow).foldlM (fun acc i =>
    (List.range ncol).foldlM (fun acc2 j => do
      let v ← if other.m_nrow ≤ i ∨ other.m_ncol ≤ j then pure 0
              else other.atF (i * other.m_ncol + j)
      pure (acc2 ++ [v])) acc) ([] : List ℚ)
  pure { m_nrow := nrow, m_ncol := ncol, m_buffer := buf }

/-- `Matrix::Matrix(Matrix &&other)` (lines 78-82): the new matrix takes
`other`'s dimensions, allocates a zero buffer of the same extent and swaps it
with `other`'s buffer. The result pair is (new matrix, state of `other`
afterwards). -/
def Matrix.moveFrom (other : Matrix) : Matrix × Matrix :=
  let fresh : List ℚ := List.replicate (other.m_nrow * other.m_ncol) 0
  ({ m_nrow := other.m_nrow, m_ncol := other.m_ncol, m_buffer := other.m_buffer },
   { m_nrow := other.m_nrow, m_ncol := other.m_ncol, m_buffer := fresh })

/-- `Matrix::Matrix(std::vector<std::vector<double>> const &other)`
(lines 84-89): `m_ncol` is read from `other[0]` with the unchecked
`operator[]`, so an empty outer vector has no defined result (modelled as
`none`); otherwise the rows are concatenated into the buffer. -/
def Matrix.fromNested (other : List (List ℚ)) : Option Matrix :=
  match other with
  | [] => none
  | r0 :: rest =>
    some { m_nrow := (r0 :: rest).length, m_ncol := r0.length,
           m_buffer := (r0 :: rest).flatten }

/-- `Matrix::unpad(x_pad, y_pad)` (lines 91-107): copies the top-left
`(m_nrow-x_pad) × (m_ncol-y_pad)` region into a fresh buffer (checked reads
from the old buffer, sequential writes into `temp`) and shrinks the
dimensions. -/
def Matrix.unpad (m : Matrix) (x_pad y_pad : Nat) : Except MatError Matrix := do
  let x := m.m_nrow - x_pad
  let y := m.m_ncol - y_pad
  let temp ← (List.range x).foldlM (fun acc i =>
    (List.range y).foldlM (fun acc2 j => do
      let v ← m.atF (i * m.m_ncol + j)
      pure (acc2 ++ [v])) acc) ([] : List ℚ)
  pure { m_nrow := x, m_ncol := y, m_buffer := temp }

/-- `class Block`: an `NDIM × NDIM` accumulator with a flat buffer. -/
structure Block where
  NDIM : Nat
  m_buffer : List ℚ
deriving DecidableEq, Repr

/-- `Block::Block(size_t N)`: zero-filled `N*N` buffer. -/
def Block.ofSize (N : Nat) : Block :=
  { NDIM := N, m_buffer := List.replicate (N * N) 0 }

/-- `Block::operator()(size_t idx)`: `m_buffer.at(idx)`. -/
def Block.atF (b : Block) (idx : Nat) : Except MatError ℚ :=
  match b.m_buffer[idx]? with
  | some v => .ok v
  | none => .error .indexOutOfRange

/-- `Block::operator()(row, col)`: `m_buffer.at(row*NDIM + col)`. -/
def Block.at2 (b : Block) (row col : Nat) : Except MatError ℚ :=
  b.atF (row * b.NDIM + col)

/-- Writing through the checked reference `m_buffer.at(idx) = v` on a block. -/
def Block.setF (b : Block) (idx : Nat) (v : ℚ) : Except MatError Block :=
  if idx < b.m_buffer.length then .ok { b with m_buffer := b.m_buffer.set idx v }
  else .error .indexOutOfRange

/-- Writing through the checked reference at `(row, col)` on a block. -/
def Block.set2 (b : Block) (row col : Nat) (v : ℚ) : Except MatError Block :=
  b.setF (row * b.NDIM + col) v

/-- `Block::operator=(double v)`: `std::fill` of the existing buffer. -/
def Block.assignScalar (b : Block) (v : ℚ) : Block :=
  { NDIM := b.NDIM, m_buffer := b.m_buffer.map (fun _ => v) }

/-- `Block::save(mat, it, jt)` (lines 153-167): adds each block cell into
`mat` at flat position `(it+i)*mat.ncol() + jt + j` through the checked
references. -/
def Block.save (b : Block) (mat : Matrix) (it jt : Nat) : Except MatError Matrix :=
  (List.range b.NDIM).foldlM (fun acc i =>
    (List.range b.NDIM).foldlM (fun acc2 j => do
      let v ← b.atF (i * b.NDIM + j)
      acc2.addF ((it + i) * mat.m_ncol + jt + j) v) acc) mat

/-- `class Tiler`: a pair of staged blocks, the right one kept transposed. -/
structure Tiler where
  NDIM : Nat
  m_mat1 : Block
  m_mat2 : Block
deriving DecidableEq, Repr

/-- `Tiler::Tiler(size_t N)`. -/
def Tiler.ofSize (N : Nat) : Tiler :=
  { NDIM := N, m_mat1 := Block.ofSize N, m_mat2 := Block.ofSize N }

/-- `Tiler::load` (lines 199-220): stages the `NDIM × NDIM` sub-block of
`mat1` at `(it1, jt1)` row-major into `m_mat1`, and the sub-block of `mat2`
at `(it2, jt2)` transposed into `m_mat2` (cell `(j, i)` receives
`mat2(it2+i, jt2+j)`). -/
def Tiler.load (t : Tiler) (mat1 : Matrix) (it1 jt1 : Nat)
    (mat2 : Matrix) (it2 jt2 : Nat) : Except MatError Tiler :=
  (List.range t.NDIM).foldlM (fun tl i =>
    (List.range t.NDIM).foldlM (fun tl2 j => do
      let a ← mat1.atF ((it1 + i) * mat1.m_ncol + jt1 + j)
      let b1 ← tl2.m_mat1.setF (i * tl2.NDIM + j) a
      let b ← mat2.atF ((it2 + i) * mat2.m_ncol + jt2 + j)
      let b2 ← tl2.m_mat2.setF (j * tl2.NDIM + i) b
      pure { tl2 with m_mat1 := b1, m_mat2 := b2 }) tl) t

/-- `Tiler::multiply(m_ret)` (lines 222-236): for every `(i, k)` of the tile,
accumulates `sum over j of m_mat1(i,j) * m_mat2(k,j)` and adds it into
`m_ret(i,k)`. -/
def Tiler.multiply (t : Tiler) (ret : Block) : Except MatError Block :=
  (List.range t.NDIM).foldlM (fun r i =>
    (List.range t.NDIM).foldlM (fun r2 k => do
      let v ← (List.range t.NDIM).foldlM (fun v j => do
        let a ← t.m_mat1.at2 i j
        let b ← t.m_mat2.at2 k j
        pure (v + a * b)) (0 : ℚ)
      let old ← r2.at2 i k
      r2.set2 i k (old + v)) r) ret

/-- `validate_multiplication` (lines 238-246): fails exactly when
`mat1.m_ncol != mat2.m_nrow`. -/
def validate_multiplication (mat1 mat2 : Matrix) : Except MatError Unit :=
  if mat1.m_ncol ≠ mat2.m_nrow then .error .shapeMismatch else .ok ()

/-- `multiply_naive` (lines 248-268): validates, allocates the
`mat1.nrow × mat2.ncol` zero result, and fills every cell with the source-order
accumulation `v += mat1(i,j) * mat2(j,k)`. -/
def multiply_naive (mat1 mat2 : Matrix) : Except MatError Matrix := do
  validate_multiplication mat1 mat2
  let ret : Matrix := Matrix.ofSize mat1.m_nrow mat2.m_ncol
  (List.range ret.m_nrow).foldlM (fun r i =>
    (List.range ret.m_ncol).foldlM (fun r2 k => do
      let v ← (List.range mat1.m_ncol).foldlM (fun v j => do
        let a ← mat1.at2 i j
        let b ← mat2.at2 j k
        pure (v + a * b)) (0 : ℚ)
      r2.set2 i k v) r) ret

/-- Derived reading of a buffer cell used in specification statements:
the value at flat position `i*m_ncol + j` (0 outside the buffer). -/
def Matrix.entry (m : Matrix) (i j : Nat) : ℚ := m.m_buffer.getD (i * m.m_ncol + j) 0

/-- Derived reading of a block cell used in specification statements. -/
def Block.entry (b : Block) (i j : Nat) : ℚ := b.m_buffer.getD (i * b.NDIM + j) 0

/-- Row-major tabulation of an `n × m` buffer, the normal form in which the
loop-built buffers are characterised. -/
def tab2 (n m : Nat) (f : Nat → Nat → ℚ) : List ℚ :=
  ((List.range n).map (fun i => (List.range m).map (fun j => f i j))).flatten

/-- The mathematical product cell: `sum over j < n of A(i,j) * B(j,k)`,
written as the sum of the list of terms in source order `j = 0, 1, ...`. -/
def prodEntry (n : Nat) (A B : Matrix) (i k : Nat) : ℚ :=
  ((List.range n).map (fun j => A.entry i j * B.entry j k)).sum

/-- Modelled from the spec: the external MKL routine `cblas_dgemm` is not part
of this repository; per spec section 4.4/6 it is a row-major, no-transpose
general matrix multiply computing exactly `C = A·B` (scale 1.0 on the product,
0.0 on the addend). -/
def cblas_dgemm (mat1 mat2 : Matrix) : Matrix :=
  { m_nrow := mat1.m_nrow, m_ncol := mat2.m_ncol,
    m_buffer := tab2 mat1.m_nrow mat2.m_ncol (prodEntry mat1.m_ncol mat1 mat2) }

/-- `multiply_mkl` (lines 270-285): validates, then delegates to the external
routine writing the full result buffer. -/
def multiply_mkl (mat1 mat2 : Matrix) : Except MatError Matrix := do
  validate_multiplication mat1 mat2
  pure (cblas_dgemm mat1 mat2)

/-- The index sequence of `for (idx = 0; idx < bound; idx += lsize)`:
`⌈bound/lsize⌉` iterations at the multiples of `lsize` (for `lsize ≥ 1`). -/
def tileIndices (bound lsize : Nat) : List Nat :=
  (List.range ((bound + lsize - 1) / lsize)).map (fun a => a * lsize)

/-- `multiply_tile` (lines 287-321): validates, pads both operands up to
multiples of the tile size (the four inline pad amounts of lines 292-295),
allocates the padded result, walks the 3-D tile grid driving one reused
`Tiler`/`Block` pair (`value = 0` reset, load/multiply over the reduction
tiles, `save` into the result), and finally unpads the result by the left
operand's row padding and the right operand's column padding. -/
def multiply_tile (m1 m2 : Matrix) (tsize : Nat) : Except MatError Matrix := do
  let lsize := tsize
  validate_multiplication m1 m2
  let nx1 := ((m1.m_nrow / lsize) + (if m1.m_nrow % lsize ≠ 0 then 1 else 0)) * lsize - m1.m_nrow
  let ny1 := ((m1.m_ncol / lsize) + (if m1.m_ncol % lsize ≠ 0 then 1 else 0)) * lsize - m1.m_ncol
  let nx2 := ((m2.m_nrow / lsize) + (if m2.m_nrow % lsize ≠ 0 then 1 else 0)) * lsize - m2.m_nrow
  let ny2 := ((m2.m_ncol / lsize) + (if m2.m_ncol % lsize ≠ 0 then 1 else 0)) * lsize - m2.m_ncol
  let mat1 ← Matrix.padded m1 nx1 ny1
  let mat2 ← Matrix.padded m2 nx2 ny2
  let ret : Matrix := Matrix.ofSize mat1.m_nrow mat2.m_ncol
  let st ← (tileIndices mat1.m_nrow lsize).foldlM (fun st it =>
    (tileIndices mat2.m_ncol lsize).foldlM (fun st2 kt => do
      let value := st2.2.1.assignScalar 0
      let inner ← (tileIndices mat1.m_ncol lsize).foldlM (fun p jt => do
        let tl ← p.1.load mat1 it jt mat2 jt kt
        let bl ← tl.multiply p.2
        pure (tl, bl)) (st2.1, value)
      let r ← inner.2.save st2.2.2 it kt
      pure (inner.1, inner.2, r)) st)
    ((Tiler.ofSize lsize, Block.ofSize lsize, ret) : Tiler × Block × Matrix)
  let fin ← st.2.2.unpad nx1 ny2
  pure fin

/-! ### Generic machinery: `Except` folds and buffer-update folds -/

theorem ok_bind {α β : Type} (a : α) (f : α → Except MatError β) :
    (Except.ok a >>= f) = f a := rfl

theorem error_bind {α β : Type} (e : MatError) (f : α → Except MatError β) :
    ((Except.error e : Except MatError α) >>= f) = Except.error e := rfl

/-- Extracting a pure fold from an `Except`-valued fold: if every step
succeeds and returns the pure step's value (under an invariant preserved by
the steps), the monadic fold succeeds with the pure fold's value. -/
theorem foldlM_eq_ok_foldl {α β : Type} (l : List α)
    (bodyM : β → α → Except MatError β) (body : β → α → β) (inv : β → Prop)
    (hstep : ∀ b a, a ∈ l → inv b → bodyM b a = Except.ok (body b a) ∧ inv (body b a))
    (b0 : β) (h0 : inv b0) :
    l.foldlM bodyM b0 = Except.ok (l.foldl body b0) ∧ inv (l.foldl body b0) := by
  induction l generalizing b0 with
  | nil => exact ⟨rfl, h0⟩
  | cons a l ih =>
    obtain ⟨h1, h2⟩ := hstep b0 a (List.mem_cons_self a l) h0
    rw [List.foldlM_cons, h1, ok_bind, List.foldl_cons]
    exact ih (fun b x hx hb => hstep b x (List.mem_cons_of_mem a hx) hb) (body b0 a) h2

theorem getD_set (b : List ℚ) (q p : Nat) (v : ℚ) :
    (b.set q v).getD p 0 = if q = p ∧ p < b.length then v else b.getD p 0 := by
  rw [List.getD_eq_getElem?_getD, List.getD_eq_getElem?_getD, List.getElem?_set]
  by_cases h : q = p
  · subst h
    by_cases hl : q < b.length
    · simp [hl]
    · rw [if_pos rfl, if_neg hl, if_neg (fun hc => hl hc.2),
        List.getElem?_eq_none (Nat.le_of_not_lt hl)]
  · simp [h]

theorem foldl_set_length (l : List Nat) (f : Nat → ℚ) (b : List ℚ) :
    (l.foldl (fun acc q => acc.set q (f q)) b).length = b.length := by
  induction l generalizing b with
  | nil => rfl
  | cons q l ih => rw [List.foldl_cons, ih, List.length_set]

/-- A fold of position-determined writes: afterwards, a position that was
written (and is inside the buffer) holds its written value, every other
position is untouched. Duplicate writes are harmless since the value depends
only on the position. -/
theorem foldl_set_getD (l : List Nat) (f : Nat → ℚ) (b : List ℚ) (p : Nat) :
    (l.foldl (fun acc q => acc.set q (f q)) b).getD p 0
      = if p ∈ l ∧ p < b.length then f p else b.getD p 0 := by
  induction l generalizing b with
  | nil => simp
  | cons q l ih =>
    rw [List.foldl_cons, ih, List.length_set, getD_set]
    by_cases hlen : p < b.length
    · by_cases hl : p ∈ l
      · rw [if_pos ⟨hl, hlen⟩, if_pos ⟨List.mem_cons.mpr (Or.inr hl), hlen⟩]
      · by_cases hq : q = p
        · rw [if_neg (fun hc => hl hc.1), if_pos ⟨hq, hlen⟩,
            if_pos ⟨List.mem_cons.mpr (Or.inl hq.symm), hlen⟩, hq]
        · rw [if_neg (fun hc => hl hc.1), if_neg (fun hc => hq hc.1),
            if_neg (fun hc => (List.mem_cons.mp hc.1).elim (fun h => hq h.symm) hl)]
    · rw [if_neg (fun hc => hlen hc.2), if_neg (fun hc => hlen hc.2),
        if_neg (fun hc => hlen hc.2)]

theorem foldl_add_length (l : List Nat) (d : Nat → ℚ) (b : List ℚ) :
    (l.foldl (fun acc q => acc.set q (acc.getD q 0 + d q)) b).length = b.length := by
  induction l generalizing b with
  | nil => rfl
  | cons q l ih => rw [List.foldl_cons, ih, List.length_set]

/-- A fold of accumulating writes over pairwise distinct in-bounds positions:
afterwards, a written position holds its old value plus its increment, every
other position is untouched. -/
theorem foldl_add_getD (l : List Nat) (d : Nat → ℚ) (b : List ℚ) (p : Nat)
    (hnd : l.Nodup) (hin : ∀ q ∈ l, q < b.length) :
    (l.foldl (fun acc q => acc.set q (acc.getD q 0 + d q)) b).getD p 0
      = if p ∈ l then b.getD p 0 + d p else b.getD p 0 := by
  induction l generalizing b with
  | nil => simp
  | cons q l ih =>
    rw [List.nodup_cons] at hnd
    have hq : q < b.length := hin q (List.mem_cons_self q l)
    have hlen2 : ∀ x ∈ l, x < (b.set q (b.getD q 0 + d q)).length := by
      intro x hx
      rw [List.length_set]
      exact hin x (List.mem_cons_of_mem q hx)
    rw [List.foldl_cons, ih _ hnd.2 hlen2, getD_set]
    by_cases hl : p ∈ l
    · have hpq : ¬(q = p ∧ p < b.length) := fun hc => hnd.1 (by rw [hc.1]; exact hl)
      rw [if_pos hl, if_neg hpq, if_pos (List.mem_cons_of_mem q hl)]
    · rw [if_neg hl]
      by_cases hpq : q = p
      · rw [if_pos ⟨hpq, hpq ▸ hq⟩, if_pos (by rw [List.mem_cons]; exact Or.inl hpq.symm), hpq]
      · rw [if_neg (fun hc => hpq hc.1), if_neg (by
          rw [List.mem_cons]
          push_neg
          exact ⟨fun h => hpq h.symm, hl⟩)]

/-- Row-major index bound. -/
theorem rowmajor_lt {i j n m : Nat} (hi : i < n) (hj : j < m) :
    i * m + j < n * m := by
  calc i * m + j < i * m + m := Nat.add_lt_add_left hj _
    _ = (i + 1) * m := by ring
    _ ≤ n * m := Nat.mul_le_mul_right m hi

/-! ### `tab2` lemmas -/

theorem tab2_succ (n m : Nat) (f : Nat → Nat → ℚ) :
    tab2 (n + 1) m f = tab2 n m f ++ (List.range m).map (f n) := by
  simp [tab2, List.range_succ]

theorem tab2_length (n m : Nat) (f : Nat → Nat → ℚ) :
    (tab2 n m f).length = n * m := by
  induction n with
  | zero => simp [tab2]
  | succ n ih =>
    rw [tab2_succ, List.length_append, ih, List.length_map, List.length_range]
    ring

theorem tab2_getElem? (n m : Nat) (f : Nat → Nat → ℚ) (i j : Nat)
    (hi : i < n) (hj : j < m) :
    (tab2 n m f)[i * m + j]? = some (f i j) := by
  induction n with
  | zero => omega
  | succ n ih =>
    rw [tab2_succ, List.getElem?_append]
    rcases Nat.lt_or_ge i n with hin | hin
    · rw [if_pos (by rw [tab2_length]; exact rowmajor_lt hin hj)]
      exact ih hin
    · have hieq : i = n := by omega
      subst hieq
      rw [if_neg (by rw [tab2_length]; omega), tab2_length]
      have : i * m + j - i * m = j := by omega
      rw [this, List.getElem?_map, List.getElem?_range hj]
      rfl

theorem tab2_getD (n m : Nat) (f : Nat → Nat → ℚ) (i j : Nat)
    (hi : i < n) (hj : j < m) :
    (tab2 n m f).getD (i * m + j) 0 = f i j := by
  rw [List.getD_eq_getElem?_getD, tab2_getElem? n m f i j hi hj]
  rfl

theorem tab2_congr {n m : Nat} {f g : Nat → Nat → ℚ}
    (h : ∀ i < n, ∀ j < m, f i j = g i j) : tab2 n m f = tab2 n m g := by
  unfold tab2
  congr 1
  apply List.map_congr_left
  intro i hi
  apply List.map_congr_left
  intro j hj
  exact h i (List.mem_range.mp hi) j (List.mem_range.mp hj)

/-- A buffer of the right length whose row-major cells match `f` is the
tabulation of `f`. -/
theorem eq_tab2_of_getD {b : List ℚ} {n m : Nat} {f : Nat → Nat → ℚ}
    (hl : b.length = n * m)
    (h : ∀ i, i < n → ∀ j, j < m → b.getD (i * m + j) 0 = f i j) :
    b = tab2 n m f := by
  apply List.ext_getElem (by rw [hl, tab2_length])
  intro p h1 h2
  have hp : p < n * m := by rw [← hl]; exact h1
  have hm : 0 < m := by
    rcases Nat.eq_zero_or_pos m with h0 | h0
    · subst h0
      rw [Nat.mul_zero] at hp
      omega
    · exact h0
  have hi : p / m < n := Nat.div_lt_of_lt_mul (by rw [Nat.mul_comm] at hp; exact hp)
  have hj : p % m < m := Nat.mod_lt _ hm
  have hdec : p / m * m + p % m = p := Nat.div_add_mod' p m
  have e1 := h _ hi _ hj
  rw [hdec] at e1
  have e2 := tab2_getD n m f (p / m) (p % m) hi hj
  rw [hdec] at e2
  rw [← List.getD_eq_getElem b 0 h1, ← List.getD_eq_getElem (tab2 n m f) 0 h2, e1, e2]

/-! ### Characterisation of the primitive accesses -/

theorem Matrix.atF_ok (m : Matrix) (idx : Nat) (h : idx < m.m_buffer.length) :
    m.atF idx = Except.ok (m.m_buffer.getD idx 0) := by
  unfold Matrix.atF
  rw [List.getElem?_eq_getElem h, List.getD_eq_getElem _ _ h]

theorem Matrix.atF_error (m : Matrix) (idx : Nat) (h : m.m_buffer.length ≤ idx) :
    m.atF idx = Except.error MatError.indexOutOfRange := by
  unfold Matrix.atF
  rw [List.getElem?_eq_none h]

theorem Matrix.setF_ok (m : Matrix) (idx : Nat) (v : ℚ) (h : idx < m.m_buffer.length) :
    m.setF idx v = Except.ok { m with m_buffer := m.m_buffer.set idx v } := by
  unfold Matrix.setF
  rw [if_pos h]

theorem Matrix.addF_ok (m : Matrix) (idx : Nat) (v : ℚ) (h : idx < m.m_buffer.length) :
    m.addF idx v
      = Except.ok { m with m_buffer := m.m_buffer.set idx (m.m_buffer.getD idx 0 + v) } := by
  unfold Matrix.addF
  rw [Matrix.atF_ok m idx h, ok_bind, Matrix.setF_ok m idx _ h]

theorem Matrix.at2_ok (m : Matrix) (hwf : m.wf) (i j : Nat)
    (hi : i < m.m_nrow) (hj : j < m.m_ncol) :
    m.at2 i j = Except.ok (m.entry i j) := by
  unfold Matrix.at2 Matrix.index Matrix.entry
  exact Matrix.atF_ok m _ (by rw [hwf]; exact rowmajor_lt hi hj)

theorem Block.atF_okB (b : Block) (idx : Nat) (h : idx < b.m_buffer.length) :
    b.atF idx = Except.ok (b.m_buffer.getD idx 0) := by
  unfold Block.atF
  rw [List.getElem?_eq_getElem h, List.getD_eq_getElem _ _ h]

theorem Block.setF_okB (b : Block) (idx : Nat) (v : ℚ) (h : idx < b.m_buffer.length) :
    b.setF idx v = Except.ok { b with m_buffer := b.m_buffer.set idx v } := by
  unfold Block.setF
  rw [if_pos h]

theorem getD_replicate (k p : Nat) : (List.replicate k (0 : ℚ)).getD p 0 = 0 := by
  rw [List.getD_eq_getElem?_getD, List.getElem?_replicate]
  by_cases h : p < k <;> simp [h]

theorem Matrix.ofSize_wf (nrow ncol : Nat) : (Matrix.ofSize nrow ncol).wf := by
  simp [Matrix.ofSize, Matrix.wf]

theorem validate_ok {mat1 mat2 : Matrix} (h : mat1.m_ncol = mat2.m_nrow) :
    validate_multiplication mat1 mat2 = Except.ok () := by
  unfold validate_multiplication
  rw [if_neg (by omega)]

theorem validate_error {mat1 mat2 : Matrix} (h : mat1.m_ncol ≠ mat2.m_nrow) :
    validate_multiplication mat1 mat2 = Except.error MatError.shapeMismatch := by
  unfold validate_multiplication
  rw [if_pos h]

/-! ### Row-major index arithmetic -/

theorem rowmajor_div {i j m : Nat} (hj : j < m) : (i * m + j) / m = i := by
  have hm : 0 < m := Nat.lt_of_le_of_lt (Nat.zero_le j) hj
  rw [Nat.add_comm, Nat.add_mul_div_right _ _ hm, Nat.div_eq_of_lt hj, Nat.zero_add]

theorem rowmajor_mod {i j m : Nat} (hj : j < m) : (i * m + j) % m = j := by
  rw [Nat.add_comm, Nat.add_mul_mod_self_right, Nat.mod_eq_of_lt hj]

/-! ### Sum extraction and nested-loop bookkeeping -/

theorem foldlM_sum_list (l : List Nat) (step : ℚ → Nat → Except MatError ℚ) (g : Nat → ℚ)
    (h : ∀ v j, j ∈ l → step v j = Except.ok (v + g j)) (v0 : ℚ) :
    l.foldlM step v0 = Except.ok (v0 + (l.map g).sum) := by
  induction l generalizing v0 with
  | nil =>
    simp only [List.foldlM_nil, List.map_nil, List.sum_nil, add_zero]
    rfl
  | cons j l ih =>
    rw [List.foldlM_cons, h v0 j (List.mem_cons_self j l), ok_bind,
      ih (fun v x hx => h v x (List.mem_cons_of_mem j hx)), List.map_cons, List.sum_cons,
      add_assoc]

theorem foldl_congr_mem {α β : Type} (l : List α) (f g : β → α → β) (b : β)
    (h : ∀ x a, a ∈ l → f x a = g x a) : l.foldl f b = l.foldl g b := by
  induction l generalizing b with
  | nil => rfl
  | cons a l ih =>
    rw [List.foldl_cons, List.foldl_cons, h b a (List.mem_cons_self a l)]
    exact ih _ (fun x y hy => h x y (List.mem_cons_of_mem a hy))

/-- The row-major positions of an `n × m` grid, row by row, are exactly
`0, 1, ..., n*m - 1`. -/
theorem range_mul_flatten (n m : Nat) :
    ((List.range n).map (fun i => (List.range m).map (fun k => i * m + k))).flatten
      = List.range (n * m) := by
  induction n with
  | zero => simp
  | succ n ih =>
    rw [List.range_succ, List.map_append, List.flatten_append, ih]
    simp only [List.map_cons, List.map_nil, List.flatten_cons, List.flatten_nil,
      List.append_nil]
    rw [Nat.succ_mul, List.range_add]

/-- A fold whose steps only rewrite the buffer leaves the dimensions alone and
acts on the buffer componentwise. -/
theorem foldl_nested_eq_flatten {β : Type} (l : List Nat) (row : Nat → List β)
    (f : List ℚ → β → List ℚ) (b : List ℚ) :
    l.foldl (fun bb i => (row i).foldl f bb) b = ((l.map row).flatten).foldl f b := by
  induction l generalizing b with
  | nil => rfl
  | cons i l ih =>
    rw [List.foldl_cons, ih, List.map_cons, List.flatten_cons, List.foldl_append]

theorem foldl_buffer_proj (l : List Nat) (g : Nat → Nat → List ℚ → Nat → List ℚ) (M : Matrix) :
    l.foldl (fun A q =>
        { m_nrow := A.m_nrow, m_ncol := A.m_ncol,
          m_buffer := g A.m_nrow A.m_ncol A.m_buffer q }) M
      = { m_nrow := M.m_nrow, m_ncol := M.m_ncol,
          m_buffer := l.foldl (g M.m_nrow M.m_ncol) M.m_buffer } := by
  induction l generalizing M with
  | nil => rfl
  | cons q l ih => rw [List.foldl_cons, List.foldl_cons, ih]

/-! ### `multiply_naive` -/

/-- The reduction loop of `multiply_naive` evaluates to the source-order sum
of products. -/
theorem dot_ok (mat1 mat2 : Matrix) (h1 : mat1.wf) (h2 : mat2.wf)
    (hsh : mat1.m_ncol = mat2.m_nrow) (i k : Nat)
    (hi : i < mat1.m_nrow) (hk : k < mat2.m_ncol) :
    (List.range mat1.m_ncol).foldlM (fun v j => do
        let a ← mat1.at2 i j
        let b ← mat2.at2 j k
        pure (v + a * b)) (0 : ℚ)
      = Except.ok (prodEntry mat1.m_ncol mat1 mat2 i k) := by
  have h := foldlM_sum_list (List.range mat1.m_ncol)
    (fun v j => do
        let a ← mat1.at2 i j
        let b ← mat2.at2 j k
        pure (v + a * b))
    (fun j => mat1.entry i j * mat2.entry j k)
    (fun v j hj => by
      have hj2 : j < mat1.m_ncol := List.mem_range.mp hj
      have hj3 : j < mat2.m_nrow := by omega
      show (do
        let a ← mat1.at2 i j
        let b ← mat2.at2 j k
        pure (v + a * b) : Except MatError ℚ)
        = Except.ok (v + mat1.entry i j * mat2.entry j k)
      rw [Matrix.at2_ok mat1 h1 i j hi hj2, ok_bind,
        Matrix.at2_ok mat2 h2 j k hj3 hk, ok_bind]
      rfl)
    0
  rw [h, prodEntry, zero_add]

/-- The buffer built by the two outer loops of `multiply_naive` is the
row-major tabulation of the product cells. -/
theorem naive_fill_eq (mat1 mat2 : Matrix) :
    (List.range mat1.m_nrow).foldl
      (fun bb i => (List.range mat2.m_ncol).foldl
        (fun bb2 k => bb2.set (i * mat2.m_ncol + k) (prodEntry mat1.m_ncol mat1 mat2 i k)) bb)
      (List.replicate (mat1.m_nrow * mat2.m_ncol) 0)
      = tab2 mat1.m_nrow mat2.m_ncol (prodEntry mat1.m_ncol mat1 mat2) := by
  have step1 : ∀ (bb : List ℚ) (i : Nat), i ∈ List.range mat1.m_nrow →
      (List.range mat2.m_ncol).foldl
        (fun bb2 k => bb2.set (i * mat2.m_ncol + k) (prodEntry mat1.m_ncol mat1 mat2 i k)) bb
      = ((List.range mat2.m_ncol).map (fun k => i * mat2.m_ncol + k)).foldl
          (fun bb2 p =>
            bb2.set p (prodEntry mat1.m_ncol mat1 mat2 (p / mat2.m_ncol) (p % mat2.m_ncol))) bb := by
    intro bb i _
    rw [List.foldl_map]
    apply foldl_congr_mem
    intro x k hk
    have hk2 : k < mat2.m_ncol := List.mem_range.mp hk
    rw [rowmajor_div hk2, rowmajor_mod hk2]
  rw [foldl_congr_mem _ _ _ _ step1,
    foldl_nested_eq_flatten (List.range mat1.m_nrow)
      (fun i => (List.range mat2.m_ncol).map (fun k => i * mat2.m_ncol + k))
      (fun bb2 p =>
        bb2.set p (prodEntry mat1.m_ncol mat1 mat2 (p / mat2.m_ncol) (p % mat2.m_ncol))),
    range_mul_flatten]
  apply eq_tab2_of_getD
  · rw [foldl_set_length, List.length_replicate]
  · intro i hi j hj
    rw [foldl_set_getD,
      if_pos ⟨List.mem_range.mpr (rowmajor_lt hi hj),
        by rw [List.length_replicate]; exact rowmajor_lt hi hj⟩,
      rowmajor_div hj, rowmajor_mod hj]

/-- `multiply_naive` on well-formed compatible operands returns the
`mat1.nrow × mat2.ncol` matrix of row-major product cells. -/
theorem multiply_naive_ok (mat1 mat2 : Matrix) (h1 : mat1.wf) (h2 : mat2.wf)
    (hsh : mat1.m_ncol = mat2.m_nrow) :
    multiply_naive mat1 mat2
      = Except.ok ({ m_nrow := mat1.m_nrow,
                     m_ncol := mat2.m_ncol,
                     m_buffer := tab2 mat1.m_nrow mat2.m_ncol
                       (prodEntry mat1.m_ncol mat1 mat2) } : Matrix) := by
  simp only [multiply_naive, Matrix.ofSize, validate_ok hsh, ok_bind]
  have houter := foldlM_eq_ok_foldl (List.range mat1.m_nrow)
    (fun (r : Matrix) i =>
      (List.range mat2.m_ncol).foldlM (fun (r2 : Matrix) k => do
        let v ← (List.range mat1.m_ncol).foldlM (fun v j => do
          let a ← mat1.at2 i j
          let b ← mat2.at2 j k
          pure (v + a * b)) (0 : ℚ)
        r2.set2 i k v) r)
    (fun (A : Matrix) i => (List.range mat2.m_ncol).foldl
      (fun (B : Matrix) k =>
        { m_nrow := B.m_nrow, m_ncol := B.m_ncol,
          m_buffer := B.m_buffer.set (i * B.m_ncol + k)
            (prodEntry mat1.m_ncol mat1 mat2 i k) }) A)
    (fun (A : Matrix) => A.m_nrow = mat1.m_nrow ∧ A.m_ncol = mat2.m_ncol ∧
      A.m_buffer.length = mat1.m_nrow * mat2.m_ncol)
    (fun (A : Matrix) i hiR hA => by
      have hi : i < mat1.m_nrow := List.mem_range.mp hiR
      exact foldlM_eq_ok_foldl (List.range mat2.m_ncol)
        (fun (r2 : Matrix) k => do
          let v ← (List.range mat1.m_ncol).foldlM (fun v j => do
            let a ← mat1.at2 i j
            let b ← mat2.at2 j k
            pure (v + a * b)) (0 : ℚ)
          r2.set2 i k v)
        (fun (B : Matrix) k =>
          { m_nrow := B.m_nrow, m_ncol := B.m_ncol,
            m_buffer := B.m_buffer.set (i * B.m_ncol + k)
              (prodEntry mat1.m_ncol mat1 mat2 i k) })
        (fun (B : Matrix) => B.m_nrow = mat1.m_nrow ∧ B.m_ncol = mat2.m_ncol ∧
          B.m_buffer.length = mat1.m_nrow * mat2.m_ncol)
        (fun (B : Matrix) k hkR hB => by
          have hk : k < mat2.m_ncol := List.mem_range.mp hkR
          have hidx : i * B.m_ncol + k < B.m_buffer.length := by
            rw [hB.2.2, hB.2.1]
            exact rowmajor_lt hi hk
          constructor
          · show (do
              let v ← (List.range mat1.m_ncol).foldlM (fun v j => do
                let a ← mat1.at2 i j
                let b ← mat2.at2 j k
                pure (v + a * b)) (0 : ℚ)
              B.set2 i k v)
              = Except.ok ({ m_nrow := B.m_nrow,
                             m_ncol := B.m_ncol,
                             m_buffer := B.m_buffer.set (i * B.m_ncol + k)
                               (prodEntry mat1.m_ncol mat1 mat2 i k) } : Matrix)
            rw [dot_ok mat1 mat2 h1 h2 hsh i k hi hk, ok_bind, Matrix.set2,
              Matrix.index, Matrix.setF_ok B _ _ hidx]
          · exact ⟨hB.1, hB.2.1, by
              show (B.m_buffer.set (i * B.m_ncol + k)
                (prodEntry mat1.m_ncol mat1 mat2 i k)).length = mat1.m_nrow * mat2.m_ncol
              rw [List.length_set]
              exact hB.2.2⟩)
        A hA)
    { m_nrow := mat1.m_nrow, m_ncol := mat2.m_ncol,
      m_buffer := List.replicate (mat1.m_nrow * mat2.m_ncol) 0 }
    ⟨rfl, rfl, List.length_replicate _ _⟩
  rw [houter.1]
  have hbody : ∀ (A : Matrix) (i : Nat), i ∈ List.range mat1.m_nrow →
      (List.range mat2.m_ncol).foldl
        (fun (B : Matrix) k =>
          { m_nrow := B.m_nrow, m_ncol := B.m_ncol,
            m_buffer := B.m_buffer.set (i * B.m_ncol + k)
              (prodEntry mat1.m_ncol mat1 mat2 i k) }) A
      = { m_nrow := A.m_nrow, m_ncol := A.m_ncol,
          m_buffer := (List.range mat2.m_ncol).foldl
            (fun bb k => bb.set (i * A.m_ncol + k) (prodEntry mat1.m_ncol mat1 mat2 i k))
            A.m_buffer } := by
    intro A i _
    exact foldl_buffer_proj (List.range mat2.m_ncol)
      (fun nr nc bb k => bb.set (i * nc + k) (prodEntry mat1.m_ncol mat1 mat2 i k)) A
  rw [foldl_congr_mem _ _ _ _ hbody,
    foldl_buffer_proj (List.range mat1.m_nrow)
      (fun nr nc bb i => (List.range mat2.m_ncol).foldl
        (fun bb2 k => bb2.set (i * nc + k) (prodEntry mat1.m_ncol mat1 mat2 i k)) bb)]
  rw [naive_fill_eq mat1 mat2]

/-! ### `Matrix.padded` and `Matrix.unpad` -/

theorem pure_bind {α β : Type} (a : α) (f : α → Except MatError β) :
    ((pure a : Except MatError α) >>= f) = f a := rfl

theorem foldlM_append_list (l : List Nat) (bodyM : List ℚ → Nat → Except MatError (List ℚ))
    (g : Nat → List ℚ)
    (h : ∀ acc q, q ∈ l → bodyM acc q = Except.ok (acc ++ g q)) (acc : List ℚ) :
    l.foldlM bodyM acc = Except.ok (acc ++ (l.map g).flatten) := by
  induction l generalizing acc with
  | nil =>
    simp only [List.foldlM_nil, List.map_nil, List.flatten_nil, List.append_nil]
    rfl
  | cons q l ih =>
    rw [List.foldlM_cons, h acc q (List.mem_cons_self q l), ok_bind,
      ih (fun a x hx => h a x (List.mem_cons_of_mem q hx)), List.map_cons, List.flatten_cons,
      List.append_assoc]

theorem flatten_map_singleton {α : Type} (l : List α) (f : α → ℚ) :
    (l.map (fun a => [f a])).flatten = l.map f := by
  induction l with
  | nil => rfl
  | cons a l ih =>
    rw [List.map_cons, List.flatten_cons, List.map_cons, ih]
    rfl

/-- The padding copy constructor on a well-formed source builds the zero-
extended matrix: source values inside the source bounds, zeros in the padding
stripes. -/
theorem padded_ok (other : Matrix) (hwf : other.wf) (x_pad y_pad : Nat) :
    other.padded x_pad y_pad
      = Except.ok ({ m_nrow := other.m_nrow + x_pad,
                     m_ncol := other.m_ncol + y_pad,
                     m_buffer := tab2 (other.m_nrow + x_pad) (other.m_ncol + y_pad)
                       (fun i j => if other.m_nrow ≤ i ∨ other.m_ncol ≤ j then 0
                         else other.entry i j) } : Matrix) := by
  have hrow : ∀ (acc : List ℚ) (i : Nat),
      (List.range (other.m_ncol + y_pad)).foldlM (fun acc2 j => do
        let v ← if other.m_nrow ≤ i ∨ other.m_ncol ≤ j then pure 0
                else other.atF (i * other.m_ncol + j)
        pure (acc2 ++ [v])) acc
      = Except.ok (acc ++ (List.range (other.m_ncol + y_pad)).map
          (fun j => if other.m_nrow ≤ i ∨ other.m_ncol ≤ j then 0
            else other.entry i j)) := by
    intro acc i
    have h := foldlM_append_list (List.range (other.m_ncol + y_pad))
      (fun acc2 j => do
        let v ← if other.m_nrow ≤ i ∨ other.m_ncol ≤ j then pure 0
                else other.atF (i * other.m_ncol + j)
        pure (acc2 ++ [v]))
      (fun j => [if other.m_nrow ≤ i ∨ other.m_ncol ≤ j then 0 else other.entry i j])
      (fun acc2 j hjR => by
        show (do
          let v ← if other.m_nrow ≤ i ∨ other.m_ncol ≤ j then pure 0
                  else other.atF (i * other.m_ncol + j)
          pure (acc2 ++ [v]))
          = Except.ok (acc2 ++ [if other.m_nrow ≤ i ∨ other.m_ncol ≤ j then 0
              else other.entry i j])
        by_cases hc : other.m_nrow ≤ i ∨ other.m_ncol ≤ j
        · rw [if_pos hc, if_pos hc, pure_bind]
          rfl
        · have hc2 := hc
          push_neg at hc2
          rw [if_neg hc, if_neg hc,
            Matrix.atF_ok other _ (by rw [hwf]; exact rowmajor_lt hc2.1 hc2.2), ok_bind]
          rfl)
      acc
    rw [h, flatten_map_singleton]
  have houter := foldlM_append_list (List.range (other.m_nrow + x_pad))
    (fun acc i => (List.range (other.m_ncol + y_pad)).foldlM (fun acc2 j => do
        let v ← if other.m_nrow ≤ i ∨ other.m_ncol ≤ j then pure 0
                else other.atF (i * other.m_ncol + j)
        pure (acc2 ++ [v])) acc)
    (fun i => (List.range (other.m_ncol + y_pad)).map
      (fun j => if other.m_nrow ≤ i ∨ other.m_ncol ≤ j then 0 else other.entry i j))
    (fun acc i _ => hrow acc i)
    []
  simp only [Matrix.padded]
  rw [houter, ok_bind, List.nil_append]
  rfl

/-- `unpad` on a well-formed matrix keeps exactly the top-left region. -/
theorem unpad_ok (m : Matrix) (hwf : m.wf) (x_pad y_pad : Nat)
    (hx : x_pad ≤ m.m_nrow) (hy : y_pad ≤ m.m_ncol) :
    m.unpad x_pad y_pad
      = Except.ok ({ m_nrow := m.m_nrow - x_pad,
                     m_ncol := m.m_ncol - y_pad,
                     m_buffer := tab2 (m.m_nrow - x_pad) (m.m_ncol - y_pad)
                       (fun i j => m.entry i j) } : Matrix) := by
  have hrow : ∀ (acc : List ℚ) (i : Nat), i < m.m_nrow - x_pad →
      (List.range (m.m_ncol - y_pad)).foldlM (fun acc2 j => do
        let v ← m.atF (i * m.m_ncol + j)
        pure (acc2 ++ [v])) acc
      = Except.ok (acc ++ (List.range (m.m_ncol - y_pad)).map (fun j => m.entry i j)) := by
    intro acc i hi
    have h := foldlM_append_list (List.range (m.m_ncol - y_pad))
      (fun acc2 j => do
        let v ← m.atF (i * m.m_ncol + j)
        pure (acc2 ++ [v]))
      (fun j => [m.entry i j])
      (fun acc2 j hjR => by
        have hj : j < m.m_ncol - y_pad := List.mem_range.mp hjR
        show (do
          let v ← m.atF (i * m.m_ncol + j)
          pure (acc2 ++ [v]))
          = Except.ok (acc2 ++ [m.entry i j])
        rw [Matrix.atF_ok m _ (by
          rw [hwf]
          exact rowmajor_lt (by omega) (by omega)), ok_bind]
        rfl)
      acc
    rw [h, flatten_map_singleton]
  have houter := foldlM_append_list (List.range (m.m_nrow - x_pad))
    (fun acc i => (List.range (m.m_ncol - y_pad)).foldlM (fun acc2 j => do
        let v ← m.atF (i * m.m_ncol + j)
        pure (acc2 ++ [v])) acc)
    (fun i => (List.range (m.m_ncol - y_pad)).map (fun j => m.entry i j))
    (fun acc i hiR => hrow acc i (List.mem_range.mp hiR))
    []
  simp only [Matrix.unpad]
  rw [houter, ok_bind, List.nil_append]
  rfl

theorem tabMatrix_wf (n m : Nat) (f : Nat → Nat → ℚ) :
    (({ m_nrow := n, m_ncol := m, m_buffer := tab2 n m f } : Matrix)).wf := by
  unfold Matrix.wf
  exact tab2_length n m f

theorem tabMatrix_entry (n m : Nat) (f : Nat → Nat → ℚ) (i j : Nat)
    (hi : i < n) (hj : j < m) :
    (({ m_nrow := n, m_ncol := m, m_buffer := tab2 n m f } : Matrix)).entry i j = f i j := by
  unfold Matrix.entry
  exact tab2_getD n m f i j hi hj

/-! ### Generic tile fills -/

/-- Writing every row-major position of an `n × m` grid over a buffer of the
right length yields the tabulation, whatever the initial contents. -/
theorem foldl_set_rowmajor (n m : Nat) (g : Nat → Nat → ℚ) (b : List ℚ)
    (hb : b.length = n * m) :
    (List.range n).foldl (fun bb i => (List.range m).foldl
      (fun bb2 k => bb2.set (i * m + k) (g i k)) bb) b
      = tab2 n m g := by
  have step1 : ∀ (bb : List ℚ) (i : Nat), i ∈ List.range n →
      (List.range m).foldl (fun bb2 k => bb2.set (i * m + k) (g i k)) bb
      = ((List.range m).map (fun k => i * m + k)).foldl
          (fun bb2 p => bb2.set p (g (p / m) (p % m))) bb := by
    intro bb i _
    rw [List.foldl_map]
    apply foldl_congr_mem
    intro x k hk
    have hk2 : k < m := List.mem_range.mp hk
    rw [rowmajor_div hk2, rowmajor_mod hk2]
  rw [foldl_congr_mem _ _ _ _ step1,
    foldl_nested_eq_flatten (List.range n)
      (fun i => (List.range m).map (fun k => i * m + k))
      (fun bb2 p => bb2.set p (g (p / m) (p % m))),
    range_mul_flatten]
  apply eq_tab2_of_getD
  · rw [foldl_set_length, hb]
  · intro i hi j hj
    rw [foldl_set_getD,
      if_pos ⟨List.mem_range.mpr (rowmajor_lt hi hj), by rw [hb]; exact rowmajor_lt hi hj⟩,
      rowmajor_div hj, rowmajor_mod hj]

/-- The column-major positions of an `N × N` grid cover `0, ..., N*N - 1`. -/
theorem mem_colmajor (N p : Nat) :
    (p ∈ ((List.range N).map (fun i => (List.range N).map (fun j => j * N + i))).flatten)
      ↔ p < N * N := by
  constructor
  · intro hp
    obtain ⟨row, hrow, hprow⟩ := List.mem_flatten.mp hp
    obtain ⟨i, hi, hieq⟩ := List.mem_map.mp hrow
    subst hieq
    obtain ⟨j, hj, hjeq⟩ := List.mem_map.mp hprow
    subst hjeq
    exact rowmajor_lt (List.mem_range.mp hj) (List.mem_range.mp hi)
  · intro hp
    have hN : 0 < N := by
      rcases Nat.eq_zero_or_pos N with h0 | h0
      · subst h0
        rw [Nat.mul_zero] at hp
        omega
      · exact h0
    apply List.mem_flatten.mpr
    refine ⟨(List.range N).map (fun j => j * N + p % N), ?_, ?_⟩
    · exact List.mem_map.mpr ⟨p % N, List.mem_range.mpr (Nat.mod_lt _ hN), rfl⟩
    · apply List.mem_map.mpr
      refine ⟨p / N, List.mem_range.mpr (Nat.div_lt_of_lt_mul (by rw [Nat.mul_comm] at hp; exact hp)), ?_⟩
      exact Nat.div_add_mod' p N

/-- Writing every column-major position of an `N × N` grid over a buffer of
the right length yields the transposed tabulation. -/
theorem foldl_set_colmajor (N : Nat) (g : Nat → Nat → ℚ) (b : List ℚ)
    (hb : b.length = N * N) :
    (List.range N).foldl (fun bb i => (List.range N).foldl
      (fun bb2 j => bb2.set (j * N + i) (g i j)) bb) b
      = tab2 N N (fun r c => g c r) := by
  have step1 : ∀ (bb : List ℚ) (i : Nat), i ∈ List.range N →
      (List.range N).foldl (fun bb2 j => bb2.set (j * N + i) (g i j)) bb
      = ((List.range N).map (fun j => j * N + i)).foldl
          (fun bb2 p => bb2.set p (g (p % N) (p / N))) bb := by
    intro bb i hi
    rw [List.foldl_map]
    apply foldl_congr_mem
    intro x j hj
    have hi2 : i < N := List.mem_range.mp hi
    rw [rowmajor_div hi2, rowmajor_mod hi2]
  rw [foldl_congr_mem _ _ _ _ step1,
    foldl_nested_eq_flatten (List.range N)
      (fun i => (List.range N).map (fun j => j * N + i))
      (fun bb2 p => bb2.set p (g (p % N) (p / N)))]
  apply eq_tab2_of_getD
  · rw [foldl_set_length, hb]
  · intro r hr c hc
    rw [foldl_set_getD,
      if_pos ⟨(mem_colmajor N _).mpr (rowmajor_lt hr hc), by rw [hb]; exact rowmajor_lt hr hc⟩,
      rowmajor_div hc, rowmajor_mod hc]

/-! ### `Tiler.load` -/

theorem foldl_tiler_proj (l : List Nat) (g1 g2 : Nat → List ℚ → Nat → List ℚ) (T : Tiler) :
    l.foldl (fun tl q =>
      Tiler.mk tl.NDIM
        (Block.mk tl.m_mat1.NDIM (g1 tl.NDIM tl.m_mat1.m_buffer q))
        (Block.mk tl.m_mat2.NDIM (g2 tl.NDIM tl.m_mat2.m_buffer q))) T
    = Tiler.mk T.NDIM
        (Block.mk T.m_mat1.NDIM (l.foldl (g1 T.NDIM) T.m_mat1.m_buffer))
        (Block.mk T.m_mat2.NDIM (l.foldl (g2 T.NDIM) T.m_mat2.m_buffer)) := by
  induction l generalizing T with
  | nil => rfl
  | cons q l ih => rw [List.foldl_cons, List.foldl_cons, List.foldl_cons, ih]

/-- `Tiler::load` stages the left sub-block row-major and the right sub-block
transposed. -/
theorem load_ok (t : Tiler) (mat1 : Matrix) (it1 jt1 : Nat) (mat2 : Matrix) (it2 jt2 : Nat)
    (h1 : mat1.wf) (h2 : mat2.wf)
    (hl1 : t.m_mat1.m_buffer.length = t.NDIM * t.NDIM)
    (hl2 : t.m_mat2.m_buffer.length = t.NDIM * t.NDIM)
    (hi1 : it1 + t.NDIM ≤ mat1.m_nrow) (hj1 : jt1 + t.NDIM ≤ mat1.m_ncol)
    (hi2 : it2 + t.NDIM ≤ mat2.m_nrow) (hj2 : jt2 + t.NDIM ≤ mat2.m_ncol) :
    t.load mat1 it1 jt1 mat2 it2 jt2
      = Except.ok (Tiler.mk t.NDIM
          (Block.mk t.m_mat1.NDIM
            (tab2 t.NDIM t.NDIM (fun i j => mat1.entry (it1 + i) (jt1 + j))))
          (Block.mk t.m_mat2.NDIM
            (tab2 t.NDIM t.NDIM (fun r c => mat2.entry (it2 + c) (jt2 + r))))) := by
  have hext := foldlM_eq_ok_foldl (List.range t.NDIM)
    (fun (tl : Tiler) i =>
      (List.range t.NDIM).foldlM (fun (tl2 : Tiler) j => do
        let a ← mat1.atF ((it1 + i) * mat1.m_ncol + jt1 + j)
        let b1 ← tl2.m_mat1.setF (i * tl2.NDIM + j) a
        let b ← mat2.atF ((it2 + i) * mat2.m_ncol + jt2 + j)
        let b2 ← tl2.m_mat2.setF (j * tl2.NDIM + i) b
        pure { tl2 with m_mat1 := b1, m_mat2 := b2 }) tl)
    (fun (tl : Tiler) i => (List.range t.NDIM).foldl
      (fun (tl2 : Tiler) j =>
        Tiler.mk tl2.NDIM
          (Block.mk tl2.m_mat1.NDIM (tl2.m_mat1.m_buffer.set (i * tl2.NDIM + j)
            (mat1.m_buffer.getD ((it1 + i) * mat1.m_ncol + jt1 + j) 0)))
          (Block.mk tl2.m_mat2.NDIM (tl2.m_mat2.m_buffer.set (j * tl2.NDIM + i)
            (mat2.m_buffer.getD ((it2 + i) * mat2.m_ncol + jt2 + j) 0)))) tl)
    (fun (tl : Tiler) => tl.NDIM = t.NDIM ∧
      tl.m_mat1.m_buffer.length = t.NDIM * t.NDIM ∧
      tl.m_mat2.m_buffer.length = t.NDIM * t.NDIM)
    (fun (tl : Tiler) i hiR htl => by
      have hi : i < t.NDIM := List.mem_range.mp hiR
      exact foldlM_eq_ok_foldl (List.range t.NDIM)
        (fun (tl2 : Tiler) j => do
          let a ← mat1.atF ((it1 + i) * mat1.m_ncol + jt1 + j)
          let b1 ← tl2.m_mat1.setF (i * tl2.NDIM + j) a
          let b ← mat2.atF ((it2 + i) * mat2.m_ncol + jt2 + j)
          let b2 ← tl2.m_mat2.setF (j * tl2.NDIM + i) b
          pure { tl2 with m_mat1 := b1, m_mat2 := b2 })
        (fun (tl2 : Tiler) j =>
          Tiler.mk tl2.NDIM
            (Block.mk tl2.m_mat1.NDIM (tl2.m_mat1.m_buffer.set (i * tl2.NDIM + j)
              (mat1.m_buffer.getD ((it1 + i) * mat1.m_ncol + jt1 + j) 0)))
            (Block.mk tl2.m_mat2.NDIM (tl2.m_mat2.m_buffer.set (j * tl2.NDIM + i)
              (mat2.m_buffer.getD ((it2 + i) * mat2.m_ncol + jt2 + j) 0))))
        (fun (tl2 : Tiler) => tl2.NDIM = t.NDIM ∧
          tl2.m_mat1.m_buffer.length = t.NDIM * t.NDIM ∧
          tl2.m_mat2.m_buffer.length = t.NDIM * t.NDIM)
        (fun (tl2 : Tiler) j hjR htl2 => by
          have hj : j < t.NDIM := List.mem_range.mp hjR
          have ha1 : (it1 + i) * mat1.m_ncol + jt1 + j < mat1.m_buffer.length := by
            rw [h1, Nat.add_assoc]
            exact rowmajor_lt (by omega) (by omega)
          have ha2 : (it2 + i) * mat2.m_ncol + jt2 + j < mat2.m_buffer.length := by
            rw [h2, Nat.add_assoc]
            exact rowmajor_lt (by omega) (by omega)
          have hs1 : i * tl2.NDIM + j < tl2.m_mat1.m_buffer.length := by
            rw [htl2.2.1, htl2.1]
            exact rowmajor_lt hi hj
          have hs2 : j * tl2.NDIM + i < tl2.m_mat2.m_buffer.length := by
            rw [htl2.2.2, htl2.1]
            exact rowmajor_lt hj hi
          constructor
          · show (do
              let a ← mat1.atF ((it1 + i) * mat1.m_ncol + jt1 + j)
              let b1 ← tl2.m_mat1.setF (i * tl2.NDIM + j) a
              let b ← mat2.atF ((it2 + i) * mat2.m_ncol + jt2 + j)
              let b2 ← tl2.m_mat2.setF (j * tl2.NDIM + i) b
              pure { tl2 with m_mat1 := b1, m_mat2 := b2 })
              = Except.ok (Tiler.mk tl2.NDIM
                  (Block.mk tl2.m_mat1.NDIM (tl2.m_mat1.m_buffer.set (i * tl2.NDIM + j)
                    (mat1.m_buffer.getD ((it1 + i) * mat1.m_ncol + jt1 + j) 0)))
                  (Block.mk tl2.m_mat2.NDIM (tl2.m_mat2.m_buffer.set (j * tl2.NDIM + i)
                    (mat2.m_buffer.getD ((it2 + i) * mat2.m_ncol + jt2 + j) 0))))
            rw [Matrix.atF_ok mat1 _ ha1, ok_bind, Block.setF_okB _ _ _ hs1, ok_bind,
              Matrix.atF_ok mat2 _ ha2, ok_bind, Block.setF_okB _ _ _ hs2, ok_bind]
            rfl
          · refine ⟨htl2.1, ?_, ?_⟩
            · show (tl2.m_mat1.m_buffer.set (i * tl2.NDIM + j)
                (mat1.m_buffer.getD ((it1 + i) * mat1.m_ncol + jt1 + j) 0)).length
                  = t.NDIM * t.NDIM
              rw [List.length_set]
              exact htl2.2.1
            · show (tl2.m_mat2.m_buffer.set (j * tl2.NDIM + i)
                (mat2.m_buffer.getD ((it2 + i) * mat2.m_ncol + jt2 + j) 0)).length
                  = t.NDIM * t.NDIM
              rw [List.length_set]
              exact htl2.2.2)
        tl htl)
    t ⟨rfl, hl1, hl2⟩
  unfold Tiler.load
  rw [hext.1]
  have hinner : ∀ (tl : Tiler) (i : Nat), i ∈ List.range t.NDIM →
      (List.range t.NDIM).foldl
        (fun (tl2 : Tiler) j =>
          Tiler.mk tl2.NDIM
            (Block.mk tl2.m_mat1.NDIM (tl2.m_mat1.m_buffer.set (i * tl2.NDIM + j)
              (mat1.m_buffer.getD ((it1 + i) * mat1.m_ncol + jt1 + j) 0)))
            (Block.mk tl2.m_mat2.NDIM (tl2.m_mat2.m_buffer.set (j * tl2.NDIM + i)
              (mat2.m_buffer.getD ((it2 + i) * mat2.m_ncol + jt2 + j) 0)))) tl
      = Tiler.mk tl.NDIM
          (Block.mk tl.m_mat1.NDIM ((List.range t.NDIM).foldl
            (fun bb j => bb.set (i * tl.NDIM + j)
              (mat1.m_buffer.getD ((it1 + i) * mat1.m_ncol + jt1 + j) 0))
            tl.m_mat1.m_buffer))
          (Block.mk tl.m_mat2.NDIM ((List.range t.NDIM).foldl
            (fun bb j => bb.set (j * tl.NDIM + i)
              (mat2.m_buffer.getD ((it2 + i) * mat2.m_ncol + jt2 + j) 0))
            tl.m_mat2.m_buffer)) := by
    intro tl i _
    exact foldl_tiler_proj (List.range t.NDIM)
      (fun nd bb j => bb.set (i * nd + j)
        (mat1.m_buffer.getD ((it1 + i) * mat1.m_ncol + jt1 + j) 0))
      (fun nd bb j => bb.set (j * nd + i)
        (mat2.m_buffer.getD ((it2 + i) * mat2.m_ncol + jt2 + j) 0)) tl
  rw [foldl_congr_mem _ _ _ _ hinner,
    foldl_tiler_proj (List.range t.NDIM)
      (fun nd bb i => (List.range t.NDIM).foldl
        (fun bb2 j => bb2.set (i * nd + j)
          (mat1.m_buffer.getD ((it1 + i) * mat1.m_ncol + jt1 + j) 0)) bb)
      (fun nd bb i => (List.range t.NDIM).foldl
        (fun bb2 j => bb2.set (j * nd + i)
          (mat2.m_buffer.getD ((it2 + i) * mat2.m_ncol + jt2 + j) 0)) bb) t]
  rw [foldl_set_rowmajor t.NDIM t.NDIM _ _ hl1, foldl_set_colmajor t.NDIM _ _ hl2]
  rw [@tab2_congr t.NDIM t.NDIM
      (fun i j => mat1.m_buffer.getD ((it1 + i) * mat1.m_ncol + jt1 + j) 0)
      (fun i j => mat1.entry (it1 + i) (jt1 + j))
      (fun i hi j hj => by
        show mat1.m_buffer.getD ((it1 + i) * mat1.m_ncol + jt1 + j) 0
          = mat1.entry (it1 + i) (jt1 + j)
        rw [Nat.add_assoc]
        rfl),
    @tab2_congr t.NDIM t.NDIM
      (fun r c => mat2.m_buffer.getD ((it2 + c) * mat2.m_ncol + jt2 + r) 0)
      (fun r c => mat2.entry (it2 + c) (jt2 + r))
      (fun r hr c hc => by
        show mat2.m_buffer.getD ((it2 + c) * mat2.m_ncol + jt2 + r) 0
          = mat2.entry (it2 + c) (jt2 + r)
        rw [Nat.add_assoc]
        rfl)]

/-! ### `Tiler.multiply` -/

theorem foldl_block_proj (l : List Nat) (g : Nat → List ℚ → Nat → List ℚ) (B : Block) :
    l.foldl (fun r q => Block.mk r.NDIM (g r.NDIM r.m_buffer q)) B
      = Block.mk B.NDIM (l.foldl (g B.NDIM) B.m_buffer) := by
  induction l generalizing B with
  | nil => rfl
  | cons q l ih => rw [List.foldl_cons, List.foldl_cons, ih]

theorem Block.at2_okB (b : Block) (i j : Nat) (h : i * b.NDIM + j < b.m_buffer.length) :
    b.at2 i j = Except.ok (b.entry i j) := by
  unfold Block.at2 Block.entry
  exact Block.atF_okB b _ h

/-- Accumulating writes over every row-major position of an `n × m` grid. -/
theorem foldl_add_rowmajor (n m : Nat) (d : Nat → Nat → ℚ) (b : List ℚ)
    (hb : b.length = n * m) :
    (List.range n).foldl (fun bb i => (List.range m).foldl
      (fun bb2 k => bb2.set (i * m + k) (bb2.getD (i * m + k) 0 + d i k)) bb) b
      = tab2 n m (fun i k => b.getD (i * m + k) 0 + d i k) := by
  have step1 : ∀ (bb : List ℚ) (i : Nat), i ∈ List.range n →
      (List.range m).foldl
        (fun bb2 k => bb2.set (i * m + k) (bb2.getD (i * m + k) 0 + d i k)) bb
      = ((List.range m).map (fun k => i * m + k)).foldl
          (fun bb2 p => bb2.set p (bb2.getD p 0 + d (p / m) (p % m))) bb := by
    intro bb i _
    rw [List.foldl_map]
    apply foldl_congr_mem
    intro x k hk
    have hk2 : k < m := List.mem_range.mp hk
    rw [rowmajor_div hk2, rowmajor_mod hk2]
  rw [foldl_congr_mem _ _ _ _ step1,
    foldl_nested_eq_flatten (List.range n)
      (fun i => (List.range m).map (fun k => i * m + k))
      (fun bb2 p => bb2.set p (bb2.getD p 0 + d (p / m) (p % m))),
    range_mul_flatten]
  apply eq_tab2_of_getD
  · rw [foldl_add_length, hb]
  · intro i hi j hj
    rw [foldl_add_getD _ _ _ _ (List.nodup_range (n * m))
        (fun q hq => by rw [hb]; exact List.mem_range.mp hq),
      if_pos (List.mem_range.mpr (rowmajor_lt hi hj)),
      rowmajor_div hj, rowmajor_mod hj]

/-- The reduction loop of `Tiler::multiply` is the source-order dot product of
a staged row with a staged (transposed) row. -/
theorem block_dot_ok (t : Tiler) (i k : Nat)
    (h1 : ∀ j, j < t.NDIM → i * t.m_mat1.NDIM + j < t.m_mat1.m_buffer.length)
    (h2 : ∀ j, j < t.NDIM → k * t.m_mat2.NDIM + j < t.m_mat2.m_buffer.length) :
    (List.range t.NDIM).foldlM (fun v j => do
        let a ← t.m_mat1.at2 i j
        let b ← t.m_mat2.at2 k j
        pure (v + a * b)) (0 : ℚ)
      = Except.ok (((List.range t.NDIM).map
          (fun j => t.m_mat1.entry i j * t.m_mat2.entry k j)).sum) := by
  have h := foldlM_sum_list (List.range t.NDIM)
    (fun v j => do
        let a ← t.m_mat1.at2 i j
        let b ← t.m_mat2.at2 k j
        pure (v + a * b))
    (fun j => t.m_mat1.entry i j * t.m_mat2.entry k j)
    (fun v j hj => by
      have hj2 : j < t.NDIM := List.mem_range.mp hj
      show (do
        let a ← t.m_mat1.at2 i j
        let b ← t.m_mat2.at2 k j
        pure (v + a * b) : Except MatError ℚ)
        = Except.ok (v + t.m_mat1.entry i j * t.m_mat2.entry k j)
      rw [Block.at2_okB t.m_mat1 i j (h1 j hj2), ok_bind,
        Block.at2_okB t.m_mat2 k j (h2 j hj2), ok_bind]
      rfl)
    0
  rw [h, zero_add]

/-- `Tiler::multiply` adds the tile product of the staged blocks into the
accumulator, cell by cell. -/
theorem tiler_multiply_ok (t : Tiler) (ret : Block)
    (hnd1 : t.m_mat1.NDIM = t.NDIM) (hnd2 : t.m_mat2.NDIM = t.NDIM)
    (hl1 : t.m_mat1.m_buffer.length = t.NDIM * t.NDIM)
    (hl2 : t.m_mat2.m_buffer.length = t.NDIM * t.NDIM)
    (hrnd : ret.NDIM = t.NDIM) (hrl : ret.m_buffer.length = t.NDIM * t.NDIM) :
    t.multiply ret = Except.ok (Block.mk ret.NDIM
      (tab2 t.NDIM t.NDIM (fun i k => ret.m_buffer.getD (i * t.NDIM + k) 0
        + ((List.range t.NDIM).map
            (fun j => t.m_mat1.entry i j * t.m_mat2.entry k j)).sum))) := by
  obtain ⟨N, rbuf⟩ := ret
  have hN : N = t.NDIM := hrnd
  subst hN
  have hrl2 : rbuf.length = t.NDIM * t.NDIM := hrl
  have hext := foldlM_eq_ok_foldl (List.range t.NDIM)
    (fun (r : Block) i =>
      (List.range t.NDIM).foldlM (fun (r2 : Block) k => do
        let v ← (List.range t.NDIM).foldlM (fun v j => do
          let a ← t.m_mat1.at2 i j
          let b ← t.m_mat2.at2 k j
          pure (v + a * b)) (0 : ℚ)
        let old ← r2.at2 i k
        r2.set2 i k (old + v)) r)
    (fun (r : Block) i => (List.range t.NDIM).foldl
      (fun (r2 : Block) k => Block.mk r2.NDIM
        (r2.m_buffer.set (i * r2.NDIM + k) (r2.m_buffer.getD (i * r2.NDIM + k) 0
          + ((List.range t.NDIM).map
              (fun j => t.m_mat1.entry i j * t.m_mat2.entry k j)).sum))) r)
    (fun (r : Block) => r.NDIM = t.NDIM ∧ r.m_buffer.length = t.NDIM * t.NDIM)
    (fun (r : Block) i hiR hr => by
      have hi : i < t.NDIM := List.mem_range.mp hiR
      exact foldlM_eq_ok_foldl (List.range t.NDIM)
        (fun (r2 : Block) k => do
          let v ← (List.range t.NDIM).foldlM (fun v j => do
            let a ← t.m_mat1.at2 i j
            let b ← t.m_mat2.at2 k j
            pure (v + a * b)) (0 : ℚ)
          let old ← r2.at2 i k
          r2.set2 i k (old + v))
        (fun (r2 : Block) k => Block.mk r2.NDIM
          (r2.m_buffer.set (i * r2.NDIM + k) (r2.m_buffer.getD (i * r2.NDIM + k) 0
            + ((List.range t.NDIM).map
                (fun j => t.m_mat1.entry i j * t.m_mat2.entry k j)).sum)))
        (fun (r2 : Block) => r2.NDIM = t.NDIM ∧ r2.m_buffer.length = t.NDIM * t.NDIM)
        (fun (r2 : Block) k hkR hr2 => by
          have hk : k < t.NDIM := List.mem_range.mp hkR
          have hidx : i * r2.NDIM + k < r2.m_buffer.length := by
            rw [hr2.2, hr2.1]
            exact rowmajor_lt hi hk
          constructor
          · show (do
              let v ← (List.range t.NDIM).foldlM (fun v j => do
                let a ← t.m_mat1.at2 i j
                let b ← t.m_mat2.at2 k j
                pure (v + a * b)) (0 : ℚ)
              let old ← r2.at2 i k
              r2.set2 i k (old + v))
              = Except.ok (Block.mk r2.NDIM
                  (r2.m_buffer.set (i * r2.NDIM + k) (r2.m_buffer.getD (i * r2.NDIM + k) 0
                    + ((List.range t.NDIM).map
                        (fun j => t.m_mat1.entry i j * t.m_mat2.entry k j)).sum)))
            rw [block_dot_ok t i k
                (fun j hj => by rw [hl1, hnd1]; exact rowmajor_lt hi hj)
                (fun j hj => by rw [hl2, hnd2]; exact rowmajor_lt hk hj),
              ok_bind, Block.at2_okB r2 i k hidx, ok_bind, Block.set2,
              Block.setF_okB r2 _ _ hidx]
            rfl
          · refine ⟨hr2.1, ?_⟩
            show (r2.m_buffer.set (i * r2.NDIM + k) (r2.m_buffer.getD (i * r2.NDIM + k) 0
              + ((List.range t.NDIM).map
                  (fun j => t.m_mat1.entry i j * t.m_mat2.entry k j)).sum)).length
                = t.NDIM * t.NDIM
            rw [List.length_set]
            exact hr2.2)
        r hr)
    (Block.mk t.NDIM rbuf) ⟨rfl, hrl2⟩
  unfold Tiler.multiply
  rw [hext.1]
  have hbody : ∀ (r : Block) (i : Nat), i ∈ List.range t.NDIM →
      (List.range t.NDIM).foldl
        (fun (r2 : Block) k => Block.mk r2.NDIM
          (r2.m_buffer.set (i * r2.NDIM + k) (r2.m_buffer.getD (i * r2.NDIM + k) 0
            + ((List.range t.NDIM).map
                (fun j => t.m_mat1.entry i j * t.m_mat2.entry k j)).sum))) r
      = Block.mk r.NDIM ((List.range t.NDIM).foldl
          (fun bb k => bb.set (i * r.NDIM + k) (bb.getD (i * r.NDIM + k) 0
            + ((List.range t.NDIM).map
                (fun j => t.m_mat1.entry i j * t.m_mat2.entry k j)).sum))
          r.m_buffer) := by
    intro r i _
    exact foldl_block_proj (List.range t.NDIM)
      (fun nd bb k => bb.set (i * nd + k) (bb.getD (i * nd + k) 0
        + ((List.range t.NDIM).map
            (fun j => t.m_mat1.entry i j * t.m_mat2.entry k j)).sum)) r
  rw [foldl_congr_mem _ _ _ _ hbody,
    foldl_block_proj (List.range t.NDIM)
      (fun nd bb i => (List.range t.NDIM).foldl
        (fun bb2 k => bb2.set (i * nd + k) (bb2.getD (i * nd + k) 0
          + ((List.range t.NDIM).map
              (fun j => t.m_mat1.entry i j * t.m_mat2.entry k j)).sum)) bb)
      (Block.mk t.NDIM rbuf)]
  rw [foldl_add_rowmajor t.NDIM t.NDIM _ rbuf hrl2]

/-! ### `Block.save` -/

theorem mem_save_positions (N ncol it jt p : Nat) :
    (p ∈ ((List.range N).map
      (fun i => (List.range N).map (fun j => (it + i) * ncol + jt + j))).flatten)
      ↔ ∃ i j, i < N ∧ j < N ∧ p = (it + i) * ncol + jt + j := by
  constructor
  · intro hp
    obtain ⟨row, hrow, hprow⟩ := List.mem_flatten.mp hp
    obtain ⟨i, hi, hieq⟩ := List.mem_map.mp hrow
    subst hieq
    obtain ⟨j, hj, hjeq⟩ := List.mem_map.mp hprow
    exact ⟨i, j, List.mem_range.mp hi, List.mem_range.mp hj, hjeq.symm⟩
  · rintro ⟨i, j, hi, hj, rfl⟩
    apply List.mem_flatten.mpr
    refine ⟨(List.range N).map (fun j => (it + i) * ncol + jt + j), ?_, ?_⟩
    · exact List.mem_map.mpr ⟨i, List.mem_range.mpr hi, rfl⟩
    · exact List.mem_map.mpr ⟨j, List.mem_range.mpr hj, rfl⟩

theorem save_positions_nodup (N ncol it jt : Nat) (hjtN : jt + N ≤ ncol) :
    (((List.range N).map
      (fun i => (List.range N).map (fun j => (it + i) * ncol + jt + j))).flatten).Nodup := by
  have hdiv : ∀ i p, p ∈ (List.range N).map (fun j => (it + i) * ncol + jt + j) →
      p / ncol = it + i := by
    intro i p hp
    obtain ⟨j, hj, hjeq⟩ := List.mem_map.mp hp
    have hj2 : j < N := List.mem_range.mp hj
    rw [← hjeq, Nat.add_assoc, rowmajor_div (by omega)]
  apply List.nodup_flatten.mpr
  constructor
  · intro row hrow
    obtain ⟨i, hi, hieq⟩ := List.mem_map.mp hrow
    subst hieq
    exact (List.nodup_range N).map (fun a b hab => by omega)
  · apply List.pairwise_map.mpr
    apply List.Pairwise.imp ?_ (List.nodup_range N)
    intro a b hab p hpa hpb
    have e1 := hdiv a p hpa
    have e2 := hdiv b p hpb
    omega

theorem covered_iff (N ncol it jt r c : Nat) (hjtN : jt + N ≤ ncol) (hc : c < ncol) :
    (∃ i j, i < N ∧ j < N ∧ r * ncol + c = (it + i) * ncol + jt + j)
      ↔ (it ≤ r ∧ r < it + N ∧ jt ≤ c ∧ c < jt + N) := by
  constructor
  · rintro ⟨i, j, hi, hj, heq⟩
    have h1 : jt + j < ncol := by omega
    have e1 : (r * ncol + c) / ncol = r := rowmajor_div hc
    have e2 : (r * ncol + c) % ncol = c := rowmajor_mod hc
    rw [heq, Nat.add_assoc, rowmajor_div h1] at e1
    rw [heq, Nat.add_assoc, rowmajor_mod h1] at e2
    omega
  · rintro ⟨h1, h2, h3, h4⟩
    refine ⟨r - it, c - jt, by omega, by omega, ?_⟩
    have e1 : it + (r - it) = r := by omega
    have e2 : jt + (c - jt) = c := by omega
    rw [e1, Nat.add_assoc, e2]

theorem ok_mk_congr_buffer {n m : Nat} {b1 b2 : List ℚ} (h : b1 = b2) :
    (Except.ok (Matrix.mk n m b1) : Except MatError Matrix)
      = Except.ok (Matrix.mk n m b2) := by rw [h]

/-- `Block::save` adds the block into the destination region; written as the
full tabulation of the destination with a conditional add on the covered
cells. -/
theorem save_ok (b : Block) (mat : Matrix) (it jt : Nat)
    (hbl : b.m_buffer.length = b.NDIM * b.NDIM)
    (hwf : mat.wf) (hit : it + b.NDIM ≤ mat.m_nrow) (hjt : jt + b.NDIM ≤ mat.m_ncol) :
    b.save mat it jt
      = Except.ok (Matrix.mk mat.m_nrow mat.m_ncol
          (tab2 mat.m_nrow mat.m_ncol (fun r c =>
            if it ≤ r ∧ r < it + b.NDIM ∧ jt ≤ c ∧ c < jt + b.NDIM
            then mat.entry r c + b.entry (r - it) (c - jt)
            else mat.entry r c))) := by
  have hext := foldlM_eq_ok_foldl (List.range b.NDIM)
    (fun (acc : Matrix) i =>
      (List.range b.NDIM).foldlM (fun (acc2 : Matrix) j => do
        let v ← b.atF (i * b.NDIM + j)
        acc2.addF ((it + i) * mat.m_ncol + jt + j) v) acc)
    (fun (acc : Matrix) i => (List.range b.NDIM).foldl
      (fun (acc2 : Matrix) j => Matrix.mk acc2.m_nrow acc2.m_ncol
        (acc2.m_buffer.set ((it + i) * mat.m_ncol + jt + j)
          (acc2.m_buffer.getD ((it + i) * mat.m_ncol + jt + j) 0
            + b.m_buffer.getD (i * b.NDIM + j) 0))) acc)
    (fun (acc : Matrix) => acc.m_nrow = mat.m_nrow ∧ acc.m_ncol = mat.m_ncol ∧
      acc.m_buffer.length = mat.m_nrow * mat.m_ncol)
    (fun (acc : Matrix) i hiR hacc => by
      have hi : i < b.NDIM := List.mem_range.mp hiR
      exact foldlM_eq_ok_foldl (List.range b.NDIM)
        (fun (acc2 : Matrix) j => do
          let v ← b.atF (i * b.NDIM + j)
          acc2.addF ((it + i) * mat.m_ncol + jt + j) v)
        (fun (acc2 : Matrix) j => Matrix.mk acc2.m_nrow acc2.m_ncol
          (acc2.m_buffer.set ((it + i) * mat.m_ncol + jt + j)
            (acc2.m_buffer.getD ((it + i) * mat.m_ncol + jt + j) 0
              + b.m_buffer.getD (i * b.NDIM + j) 0)))
        (fun (acc2 : Matrix) => acc2.m_nrow = mat.m_nrow ∧ acc2.m_ncol = mat.m_ncol ∧
          acc2.m_buffer.length = mat.m_nrow * mat.m_ncol)
        (fun (acc2 : Matrix) j hjR hacc2 => by
          have hj : j < b.NDIM := List.mem_range.mp hjR
          have hread : i * b.NDIM + j < b.m_buffer.length := by
            rw [hbl]
            exact rowmajor_lt hi hj
          have hw : (it + i) * mat.m_ncol + jt + j < acc2.m_buffer.length := by
            rw [hacc2.2.2, Nat.add_assoc]
            exact rowmajor_lt (by omega) (by omega)
          constructor
          · show (do
              let v ← b.atF (i * b.NDIM + j)
              acc2.addF ((it + i) * mat.m_ncol + jt + j) v)
              = Except.ok (Matrix.mk acc2.m_nrow acc2.m_ncol
                  (acc2.m_buffer.set ((it + i) * mat.m_ncol + jt + j)
                    (acc2.m_buffer.getD ((it + i) * mat.m_ncol + jt + j) 0
                      + b.m_buffer.getD (i * b.NDIM + j) 0)))
            rw [Block.atF_okB b _ hread, ok_bind, Matrix.addF_ok acc2 _ _ hw]
          · refine ⟨hacc2.1, hacc2.2.1, ?_⟩
            show (acc2.m_buffer.set ((it + i) * mat.m_ncol + jt + j)
              (acc2.m_buffer.getD ((it + i) * mat.m_ncol + jt + j) 0
                + b.m_buffer.getD (i * b.NDIM + j) 0)).length = mat.m_nrow * mat.m_ncol
            rw [List.length_set]
            exact hacc2.2.2)
        acc hacc)
    mat ⟨rfl, rfl, hwf⟩
  unfold Block.save
  rw [hext.1]
  have hbody : ∀ (acc : Matrix) (i : Nat), i ∈ List.range b.NDIM →
      (List.range b.NDIM).foldl
        (fun (acc2 : Matrix) j => Matrix.mk acc2.m_nrow acc2.m_ncol
          (acc2.m_buffer.set ((it + i) * mat.m_ncol + jt + j)
            (acc2.m_buffer.getD ((it + i) * mat.m_ncol + jt + j) 0
              + b.m_buffer.getD (i * b.NDIM + j) 0))) acc
      = Matrix.mk acc.m_nrow acc.m_ncol
          ((List.range b.NDIM).foldl
            (fun bb j => bb.set ((it + i) * mat.m_ncol + jt + j)
              (bb.getD ((it + i) * mat.m_ncol + jt + j) 0
                + b.m_buffer.getD (i * b.NDIM + j) 0))
            acc.m_buffer) := by
    intro acc i _
    exact foldl_buffer_proj (List.range b.NDIM)
      (fun nr nc bb j => bb.set ((it + i) * mat.m_ncol + jt + j)
        (bb.getD ((it + i) * mat.m_ncol + jt + j) 0
          + b.m_buffer.getD (i * b.NDIM + j) 0)) acc
  rw [foldl_congr_mem _ _ _ _ hbody,
    foldl_buffer_proj (List.range b.NDIM)
      (fun nr nc bb i => (List.range b.NDIM).foldl
        (fun bb2 j => bb2.set ((it + i) * mat.m_ncol + jt + j)
          (bb2.getD ((it + i) * mat.m_ncol + jt + j) 0
            + b.m_buffer.getD (i * b.NDIM + j) 0)) bb) mat]
  have hpos : ∀ (bb : List ℚ) (i : Nat), i ∈ List.range b.NDIM →
      (List.range b.NDIM).foldl
        (fun bb2 j => bb2.set ((it + i) * mat.m_ncol + jt + j)
          (bb2.getD ((it + i) * mat.m_ncol + jt + j) 0
            + b.m_buffer.getD (i * b.NDIM + j) 0)) bb
      = ((List.range b.NDIM).map (fun j => (it + i) * mat.m_ncol + jt + j)).foldl
          (fun bb2 p => bb2.set p (bb2.getD p 0
            + b.m_buffer.getD ((p / mat.m_ncol - it) * b.NDIM + (p % mat.m_ncol - jt)) 0)) bb := by
    intro bb i hiR
    have hi : i < b.NDIM := List.mem_range.mp hiR
    rw [List.foldl_map]
    apply foldl_congr_mem
    intro x j hj
    have hj2 : j < b.NDIM := List.mem_range.mp hj
    rw [Nat.add_assoc, rowmajor_div (by omega), rowmajor_mod (by omega)]
    have e1 : it + i - it = i := by omega
    have e2 : jt + j - jt = j := by omega
    rw [e1, e2]
  rw [foldl_congr_mem _ _ _ _ hpos,
    foldl_nested_eq_flatten (List.range b.NDIM)
      (fun i => (List.range b.NDIM).map (fun j => (it + i) * mat.m_ncol + jt + j))
      (fun bb2 p => bb2.set p (bb2.getD p 0
        + b.m_buffer.getD ((p / mat.m_ncol - it) * b.NDIM + (p % mat.m_ncol - jt)) 0))]
  apply ok_mk_congr_buffer
  apply eq_tab2_of_getD
  · rw [foldl_add_length, hwf]
  · intro r hr c hc
    rw [foldl_add_getD _ _ _ _ (save_positions_nodup b.NDIM mat.m_ncol it jt hjt)
        (fun q hq => by
          obtain ⟨i, j, hi, hj, hqeq⟩ := (mem_save_positions _ _ _ _ _).mp hq
          rw [hwf, hqeq, Nat.add_assoc]
          exact rowmajor_lt (by omega) (by omega))]
    by_cases hcov : it ≤ r ∧ r < it + b.NDIM ∧ jt ≤ c ∧ c < jt + b.NDIM
    · rw [if_pos ((mem_save_positions _ _ _ _ _).mpr
          ((covered_iff b.NDIM mat.m_ncol it jt r c hjt hc).mpr hcov)),
        if_pos hcov, rowmajor_div hc, rowmajor_mod hc]
      rfl
    · rw [if_neg (fun hmem => hcov ((covered_iff b.NDIM mat.m_ncol it jt r c hjt hc).mp
          ((mem_save_positions _ _ _ _ _).mp hmem))),
        if_neg hcov]
      rfl

/-! ### The reduction loop of `multiply_tile` -/

theorem assignScalar_length (b : Block) (v : ℚ) :
    (b.assignScalar v).m_buffer.length = b.m_buffer.length := by
  unfold Block.assignScalar
  exact List.length_map _ _

theorem assignScalar_zero_getD (b : Block) (p : Nat) :
    (b.assignScalar 0).m_buffer.getD p 0 = 0 := by
  unfold Block.assignScalar
  rw [List.getD_eq_getElem?_getD, List.getElem?_map]
  rcases b.m_buffer[p]? with _ | x <;> rfl

/-- Summing tile by tile over a reduction dimension that is a multiple of the
tile size is summing over the whole dimension. -/
theorem sum_tiles (q N : Nat) (f : Nat → ℚ) :
    ((List.range q).map (fun a => ((List.range N).map (fun j => f (a * N + j))).sum)).sum
      = ((List.range (q * N)).map f).sum := by
  induction q with
  | zero => simp
  | succ q ih =>
    rw [List.range_succ, List.map_append, List.sum_append, ih, Nat.succ_mul,
      List.range_add, List.map_append, List.sum_append, List.map_map]
    simp only [List.map_cons, List.map_nil, List.sum_cons, List.sum_nil, add_zero,
      Function.comp_def]

/-- One pass of the reduction loop: load a tile pair, multiply-accumulate.
After the whole list of reduction offsets, the accumulator has gained the
partial products of every processed tile. -/
theorem jt_fold_ok (Ap Bp : Matrix) (N it kt : Nat)
    (hwfA : Ap.wf) (hwfB : Bp.wf)
    (hit : it + N ≤ Ap.m_nrow) (hkt : kt + N ≤ Bp.m_ncol)
    (hAB : Ap.m_ncol = Bp.m_nrow)
    (jts : List Nat) (hjts : ∀ jt ∈ jts, jt + N ≤ Ap.m_ncol)
    (p : Tiler × Block)
    (hp1 : p.1.NDIM = N) (hp2 : p.1.m_mat1.NDIM = N) (hp3 : p.1.m_mat2.NDIM = N)
    (hp4 : p.1.m_mat1.m_buffer.length = N * N) (hp5 : p.1.m_mat2.m_buffer.length = N * N)
    (hp6 : p.2.NDIM = N) (hp7 : p.2.m_buffer.length = N * N) :
    ∃ q : Tiler × Block,
      jts.foldlM (fun (p0 : Tiler × Block) jt => do
        let tl ← p0.1.load Ap it jt Bp jt kt
        let bl ← tl.multiply p0.2
        pure (tl, bl)) p = Except.ok q ∧
      q.1.NDIM = N ∧ q.1.m_mat1.NDIM = N ∧ q.1.m_mat2.NDIM = N ∧
      q.1.m_mat1.m_buffer.length = N * N ∧ q.1.m_mat2.m_buffer.length = N * N ∧
      q.2.NDIM = N ∧ q.2.m_buffer.length = N * N ∧
      ∀ i k, i < N → k < N →
        q.2.m_buffer.getD (i * N + k) 0 = p.2.m_buffer.getD (i * N + k) 0
          + (jts.map (fun jt => ((List.range N).map
              (fun j => Ap.entry (it + i) (jt + j) * Bp.entry (jt + j) (kt + k))).sum)).sum := by
  induction jts generalizing p with
  | nil =>
    refine ⟨p, rfl, hp1, hp2, hp3, hp4, hp5, hp6, hp7, ?_⟩
    intro i k hi hk
    rw [List.map_nil, List.sum_nil, add_zero]
  | cons jt jts ih =>
    have hjt : jt + N ≤ Ap.m_ncol := hjts jt (List.mem_cons_self jt jts)
    have hload := load_ok p.1 Ap it jt Bp jt kt hwfA hwfB
      (by rw [hp1]; exact hp4) (by rw [hp1]; exact hp5)
      (by rw [hp1]; exact hit) (by rw [hp1]; exact hjt)
      (by rw [hp1, ← hAB]; exact hjt) (by rw [hp1]; exact hkt)
    rw [hp1, hp2, hp3] at hload
    have hmul := tiler_multiply_ok
      (Tiler.mk N
        (Block.mk N (tab2 N N (fun i j => Ap.entry (it + i) (jt + j))))
        (Block.mk N (tab2 N N (fun r c => Bp.entry (jt + c) (kt + r)))))
      p.2 rfl rfl
      (by rw [tab2_length]) (by rw [tab2_length]) hp6 hp7
    have hstep : (do
        let tl ← p.1.load Ap it jt Bp jt kt
        let bl ← tl.multiply p.2
        pure (tl, bl) : Except MatError (Tiler × Block))
        = Except.ok
          (Tiler.mk N
            (Block.mk N (tab2 N N (fun i j => Ap.entry (it + i) (jt + j))))
            (Block.mk N (tab2 N N (fun r c => Bp.entry (jt + c) (kt + r)))),
           Block.mk p.2.NDIM
            (tab2 N N (fun i k => p.2.m_buffer.getD (i * N + k) 0
              + ((List.range N).map
                  (fun j => (tab2 N N (fun a c => Ap.entry (it + a) (jt + c))).getD (i * N + j) 0
                    * (tab2 N N (fun r c => Bp.entry (jt + c) (kt + r))).getD (k * N + j) 0)).sum))) := by
      rw [hload, ok_bind, hmul, ok_bind]
      rfl
    obtain ⟨q, hfold, hq1, hq2, hq3, hq4, hq5, hq6, hq7, hqent⟩ := ih
      (fun x hx => hjts x (List.mem_cons_of_mem jt hx))
      (Tiler.mk N
        (Block.mk N (tab2 N N (fun i j => Ap.entry (it + i) (jt + j))))
        (Block.mk N (tab2 N N (fun r c => Bp.entry (jt + c) (kt + r)))),
       Block.mk p.2.NDIM
        (tab2 N N (fun i k => p.2.m_buffer.getD (i * N + k) 0
          + ((List.range N).map
              (fun j => (tab2 N N (fun a c => Ap.entry (it + a) (jt + c))).getD (i * N + j) 0
                * (tab2 N N (fun r c => Bp.entry (jt + c) (kt + r))).getD (k * N + j) 0)).sum)))
      rfl rfl rfl (by rw [tab2_length]) (by rw [tab2_length]) hp6 (by rw [tab2_length])
    refine ⟨q, ?_, hq1, hq2, hq3, hq4, hq5, hq6, hq7, ?_⟩
    · rw [List.foldlM_cons, hstep, ok_bind, hfold]
    · intro i k hi hk
      rw [hqent i k hi hk]
      show (tab2 N N (fun i k => p.2.m_buffer.getD (i * N + k) 0
          + ((List.range N).map
              (fun j => (tab2 N N (fun a c => Ap.entry (it + a) (jt + c))).getD (i * N + j) 0
                * (tab2 N N (fun r c => Bp.entry (jt + c) (kt + r))).getD (k * N + j) 0)).sum)).getD
            (i * N + k) 0
          + (jts.map (fun jt2 => ((List.range N).map
              (fun j => Ap.entry (it + i) (jt2 + j) * Bp.entry (jt2 + j) (kt + k))).sum)).sum
        = p.2.m_buffer.getD (i * N + k) 0
          + (((jt :: jts)).map (fun jt2 => ((List.range N).map
              (fun j => Ap.entry (it + i) (jt2 + j) * Bp.entry (jt2 + j) (kt + k))).sum)).sum
      rw [tab2_getD N N _ i k hi hk, List.map_cons, List.sum_cons]
      have hterm : ((List.range N).map
          (fun j => (tab2 N N (fun a c => Ap.entry (it + a) (jt + c))).getD (i * N + j) 0
            * (tab2 N N (fun r c => Bp.entry (jt + c) (kt + r))).getD (k * N + j) 0)).sum
          = ((List.range N).map
              (fun j => Ap.entry (it + i) (jt + j) * Bp.entry (jt + j) (kt + k))).sum := by
        apply congrArg
        apply List.map_congr_left
        intro j hj
        have hj2 : j < N := List.mem_range.mp hj
        rw [tab2_getD N N _ i j hi hj2, tab2_getD N N _ k j hk hj2]
      rw [hterm, add_assoc]

/-! ### Tile-grid arithmetic -/

theorem tileIndices_eq (q N : Nat) (hN : 0 < N) :
    tileIndices (q * N) N = (List.range q).map (fun a => a * N) := by
  unfold tileIndices
  congr 2
  have h1 : q * N + N - 1 = N - 1 + q * N := by omega
  rw [h1, Nat.mul_comm q N, Nat.add_mul_div_left _ _ hN,
    Nat.div_eq_of_lt (by omega), Nat.zero_add]

theorem tileIndices_bound (q N x : Nat) (hN : 0 < N) (hx : x ∈ tileIndices (q * N) N) :
    (x + N ≤ q * N) ∧ ∃ a, a < q ∧ x = a * N := by
  rw [tileIndices_eq q N hN] at hx
  obtain ⟨a, ha, rfl⟩ := List.mem_map.mp hx
  have ha2 : a < q := List.mem_range.mp ha
  constructor
  · calc a * N + N = (a + 1) * N := (Nat.succ_mul a N).symm
      _ ≤ q * N := Nat.mul_le_mul_right N ha2
  · exact ⟨a, ha2, rfl⟩

theorem pad_roundup (d N : Nat) (hN : 0 < N) :
    d ≤ ((d / N) + (if d % N ≠ 0 then 1 else 0)) * N := by
  by_cases h : d % N = 0
  · rw [if_neg (fun hc => hc h), Nat.add_zero]
    exact Nat.le_of_eq (Nat.div_mul_cancel (Nat.dvd_of_mod_eq_zero h)).symm
  · rw [if_pos h, Nat.succ_mul]
    have e := Nat.div_add_mod' d N
    have hlt : d % N < N := Nat.mod_lt _ hN
    calc d = d / N * N + d % N := e.symm
      _ ≤ d / N * N + N := Nat.add_le_add_left (Nat.le_of_lt hlt) _

theorem cover_self (N r : Nat) (hN : 0 < N) :
    (r / N) * N ≤ r ∧ r < (r / N) * N + N := by
  constructor
  · exact Nat.div_mul_le_self r N
  · have e := Nat.div_add_mod' r N
    have hlt : r % N < N := Nat.mod_lt _ hN
    calc r = r / N * N + r % N := e.symm
      _ < r / N * N + N := Nat.add_lt_add_left hlt _

theorem cover_unique (N r c a1 b1 a2 b2 : Nat)
    (h1 : a1 * N ≤ r) (h2 : r < a1 * N + N) (h3 : b1 * N ≤ c) (h4 : c < b1 * N + N)
    (h5 : a2 * N ≤ r) (h6 : r < a2 * N + N) (h7 : b2 * N ≤ c) (h8 : c < b2 * N + N) :
    a1 = a2 ∧ b1 = b2 := by
  have e1 : r / N = a1 := Nat.div_eq_of_lt_le h1 (by rw [Nat.succ_mul]; exact h2)
  have e2 : r / N = a2 := Nat.div_eq_of_lt_le h5 (by rw [Nat.succ_mul]; exact h6)
  have e3 : c / N = b1 := Nat.div_eq_of_lt_le h3 (by rw [Nat.succ_mul]; exact h4)
  have e4 : c / N = b2 := Nat.div_eq_of_lt_le h7 (by rw [Nat.succ_mul]; exact h8)
  exact ⟨e1.symm.trans e2, e3.symm.trans e4⟩

theorem foldlM_nested_pairs {σ : Type} (l1 l2 : List Nat)
    (body : σ → Nat → Nat → Except MatError σ) (s : σ) :
    l1.foldlM (fun st it => l2.foldlM (fun st2 kt => body st2 it kt) st) s
      = ((l1.map (fun it => l2.map (fun kt => ((it, kt) : Nat × Nat)))).flatten).foldlM
          (fun st2 c0 => body st2 c0.1 c0.2) s := by
  induction l1 generalizing s with
  | nil => rfl
  | cons it l1 ih =>
    rw [List.foldlM_cons, List.map_cons, List.flatten_cons, List.foldlM_append,
      List.foldlM_map]
    have hinner : l2.foldlM (fun st2 kt => body st2 it kt) s
        = l2.foldlM (fun x y => body x ((it, y) : Nat × Nat).1 ((it, y) : Nat × Nat).2) s := rfl
    rw [hinner]
    congr 1
    funext s2
    exact ih s2

/-! ### The tile-grid walk -/

/-- Walking any duplicate-free list of aligned tile cells: the tiler and the
accumulator are scratch state, and the result matrix gains the full product
cell value on every covered cell. -/
theorem grid_fold_ok (Ap Bp : Matrix) (N qj : Nat) (hN : 0 < N)
    (hwfA : Ap.wf) (hwfB : Bp.wf) (hAB : Ap.m_ncol = Bp.m_nrow)
    (hqj : Ap.m_ncol = qj * N)
    (cells : List (Nat × Nat))
    (hcells : ∀ c0 ∈ cells, (∃ a, c0.1 = a * N) ∧ c0.1 + N ≤ Ap.m_nrow ∧
      (∃ b2, c0.2 = b2 * N) ∧ c0.2 + N ≤ Bp.m_ncol)
    (hnd : cells.Nodup)
    (st : Tiler × Block × Matrix)
    (h1 : st.1.NDIM = N) (h2 : st.1.m_mat1.NDIM = N) (h3 : st.1.m_mat2.NDIM = N)
    (h4 : st.1.m_mat1.m_buffer.length = N * N) (h5 : st.1.m_mat2.m_buffer.length = N * N)
    (h6 : st.2.1.NDIM = N) (h7 : st.2.1.m_buffer.length = N * N)
    (h8 : st.2.2.m_nrow = Ap.m_nrow) (h9 : st.2.2.m_ncol = Bp.m_ncol) (h10 : st.2.2.wf) :
    ∃ stF : Tiler × Block × Matrix,
      cells.foldlM (fun (st2 : Tiler × Block × Matrix) (cell : Nat × Nat) => do
        let value := st2.2.1.assignScalar 0
        let inner ← (tileIndices Ap.m_ncol N).foldlM (fun (p : Tiler × Block) jt => do
          let tl ← p.1.load Ap cell.1 jt Bp jt cell.2
          let bl ← tl.multiply p.2
          pure (tl, bl)) (st2.1, value)
        let r ← inner.2.save st2.2.2 cell.1 cell.2
        pure (inner.1, inner.2, r)) st = Except.ok stF ∧
      stF.2.2.m_nrow = Ap.m_nrow ∧ stF.2.2.m_ncol = Bp.m_ncol ∧ stF.2.2.wf ∧
      ∀ r c, r < Ap.m_nrow → c < Bp.m_ncol →
        ((∃ c0 ∈ cells, c0.1 ≤ r ∧ r < c0.1 + N ∧ c0.2 ≤ c ∧ c < c0.2 + N) →
          stF.2.2.entry r c = st.2.2.entry r c + prodEntry Ap.m_ncol Ap Bp r c) ∧
        ((¬ ∃ c0 ∈ cells, c0.1 ≤ r ∧ r < c0.1 + N ∧ c0.2 ≤ c ∧ c < c0.2 + N) →
          stF.2.2.entry r c = st.2.2.entry r c) := by
  induction cells generalizing st with
  | nil =>
    refine ⟨st, rfl, h8, h9, h10, ?_⟩
    intro r c hr hc
    constructor
    · rintro ⟨c0, hc0, _⟩
      exact absurd hc0 (List.not_mem_nil c0)
    · intro _
      rfl
  | cons cell cells ih =>
    rw [List.nodup_cons] at hnd
    obtain ⟨⟨a0, ha0⟩, hbr, ⟨b0, hb0⟩, hbc⟩ := hcells cell (List.mem_cons_self cell cells)
    have hv7 : (st.2.1.assignScalar 0).m_buffer.length = N * N := by
      rw [assignScalar_length]
      exact h7
    obtain ⟨qf, hfoldjt, hq1, hq2, hq3, hq4, hq5, hq6, hq7, hqent⟩ :=
      jt_fold_ok Ap Bp N cell.1 cell.2 hwfA hwfB hbr hbc hAB
        (tileIndices Ap.m_ncol N)
        (fun jt hjt => by
          rw [hqj]
          exact (tileIndices_bound qj N jt hN (by rw [← hqj]; exact hjt)).1)
        (st.1, st.2.1.assignScalar 0) h1 h2 h3 h4 h5 h6 hv7
    have hsave := save_ok qf.2 st.2.2 cell.1 cell.2
      (by rw [hq6]; exact hq7) h10
      (by rw [hq6, h8]; exact hbr) (by rw [hq6, h9]; exact hbc)
    rw [hq6, h8, h9] at hsave
    have hstep : (do
        let value := st.2.1.assignScalar 0
        let inner ← (tileIndices Ap.m_ncol N).foldlM (fun (p : Tiler × Block) jt => do
          let tl ← p.1.load Ap cell.1 jt Bp jt cell.2
          let bl ← tl.multiply p.2
          pure (tl, bl)) (st.1, value)
        let r ← inner.2.save st.2.2 cell.1 cell.2
        pure (inner.1, inner.2, r) : Except MatError (Tiler × Block × Matrix))
        = Except.ok (qf.1, qf.2, Matrix.mk Ap.m_nrow Bp.m_ncol
            (tab2 Ap.m_nrow Bp.m_ncol (fun r c =>
              if cell.1 ≤ r ∧ r < cell.1 + N ∧ cell.2 ≤ c ∧ c < cell.2 + N
              then st.2.2.entry r c + qf.2.entry (r - cell.1) (c - cell.2)
              else st.2.2.entry r c))) := by
      show ((tileIndices Ap.m_ncol N).foldlM (fun (p : Tiler × Block) jt => do
          let tl ← p.1.load Ap cell.1 jt Bp jt cell.2
          let bl ← tl.multiply p.2
          pure (tl, bl)) (st.1, st.2.1.assignScalar 0) >>= fun inner =>
        inner.2.save st.2.2 cell.1 cell.2 >>= fun r => pure (inner.1, inner.2, r))
        = _
      rw [hfoldjt, ok_bind]
      show (qf.2.save st.2.2 cell.1 cell.2 >>= fun r => pure (qf.1, qf.2, r)) = _
      rw [hsave, ok_bind]
      rfl
    obtain ⟨stF, hfoldF, hf1, hf2, hf3, hfent⟩ := ih
      (fun c0 hc0 => hcells c0 (List.mem_cons_of_mem cell hc0)) hnd.2
      (qf.1, qf.2, Matrix.mk Ap.m_nrow Bp.m_ncol
        (tab2 Ap.m_nrow Bp.m_ncol (fun r c =>
          if cell.1 ≤ r ∧ r < cell.1 + N ∧ cell.2 ≤ c ∧ c < cell.2 + N
          then st.2.2.entry r c + qf.2.entry (r - cell.1) (c - cell.2)
          else st.2.2.entry r c)))
      hq1 hq2 hq3 hq4 hq5 hq6 hq7 rfl rfl (tabMatrix_wf _ _ _)
    refine ⟨stF, ?_, hf1, hf2, hf3, ?_⟩
    · rw [List.foldlM_cons, hstep, ok_bind, hfoldF]
    · intro r c hr hc
      have hmid := hfent r c hr hc
      have hmident : (Matrix.mk Ap.m_nrow Bp.m_ncol
          (tab2 Ap.m_nrow Bp.m_ncol (fun r c =>
            if cell.1 ≤ r ∧ r < cell.1 + N ∧ cell.2 ≤ c ∧ c < cell.2 + N
            then st.2.2.entry r c + qf.2.entry (r - cell.1) (c - cell.2)
            else st.2.2.entry r c))).entry r c
          = if cell.1 ≤ r ∧ r < cell.1 + N ∧ cell.2 ≤ c ∧ c < cell.2 + N
            then st.2.2.entry r c + qf.2.entry (r - cell.1) (c - cell.2)
            else st.2.2.entry r c :=
        tabMatrix_entry Ap.m_nrow Bp.m_ncol _ r c hr hc
      have hprod : (cell.1 ≤ r ∧ r < cell.1 + N ∧ cell.2 ≤ c ∧ c < cell.2 + N) →
          qf.2.entry (r - cell.1) (c - cell.2) = prodEntry Ap.m_ncol Ap Bp r c := by
        rintro ⟨hcv1, hcv2, hcv3, hcv4⟩
        have hi : r - cell.1 < N := by omega
        have hk : c - cell.2 < N := by omega
        show qf.2.m_buffer.getD ((r - cell.1) * qf.2.NDIM + (c - cell.2)) 0
          = prodEntry Ap.m_ncol Ap Bp r c
        rw [hq6, hqent (r - cell.1) (c - cell.2) hi hk, assignScalar_zero_getD, zero_add]
        have e1 : cell.1 + (r - cell.1) = r := by omega
        have e2 : cell.2 + (c - cell.2) = c := by omega
        rw [e1, e2]
        rw [show tileIndices Ap.m_ncol N = (List.range qj).map (fun a => a * N) from by
          rw [hqj]; exact tileIndices_eq qj N hN]
        rw [List.map_map]
        show ((List.range qj).map (fun a => ((List.range N).map
            (fun j => Ap.entry r (a * N + j) * Bp.entry (a * N + j) c)).sum)).sum
          = prodEntry Ap.m_ncol Ap Bp r c
        rw [sum_tiles qj N (fun x => Ap.entry r x * Bp.entry x c), prodEntry, ← hqj]
      constructor
      · rintro ⟨c0, hc0m, hcov⟩
        rcases List.mem_cons.mp hc0m with hhead | htail
        · subst hhead
          have hnotail : ¬ ∃ c1 ∈ cells, c1.1 ≤ r ∧ r < c1.1 + N ∧ c1.2 ≤ c ∧ c < c1.2 + N := by
            rintro ⟨c1, hc1m, hcov1⟩
            obtain ⟨⟨a1, ha1⟩, _, ⟨b1, hb1⟩, _⟩ :=
              hcells c1 (List.mem_cons_of_mem c0 hc1m)
            have huniq := cover_unique N r c a1 b1 a0 b0
              (ha1 ▸ hcov1.1) (ha1 ▸ hcov1.2.1) (hb1 ▸ hcov1.2.2.1) (hb1 ▸ hcov1.2.2.2)
              (ha0 ▸ hcov.1) (ha0 ▸ hcov.2.1) (hb0 ▸ hcov.2.2.1) (hb0 ▸ hcov.2.2.2)
            have hceq : c1 = c0 := Prod.ext_iff.mpr
              ⟨by rw [ha1, ha0, huniq.1], by rw [hb1, hb0, huniq.2]⟩
            exact hnd.1 (hceq ▸ hc1m)
          rw [hmid.2 hnotail, hmident, if_pos hcov, hprod hcov]
        · rw [hmid.1 ⟨c0, htail, hcov⟩, hmident]
          by_cases hcovh : cell.1 ≤ r ∧ r < cell.1 + N ∧ cell.2 ≤ c ∧ c < cell.2 + N
          · rw [if_pos hcovh, hprod hcovh]
            obtain ⟨⟨a1, ha1⟩, _, ⟨b1, hb1⟩, _⟩ := hcells c0 hc0m
            have huniq := cover_unique N r c a1 b1 a0 b0
              (ha1 ▸ hcov.1) (ha1 ▸ hcov.2.1) (hb1 ▸ hcov.2.2.1) (hb1 ▸ hcov.2.2.2)
              (ha0 ▸ hcovh.1) (ha0 ▸ hcovh.2.1) (hb0 ▸ hcovh.2.2.1) (hb0 ▸ hcovh.2.2.2)
            have hceq : c0 = cell := Prod.ext_iff.mpr
              ⟨by rw [ha1, ha0, huniq.1], by rw [hb1, hb0, huniq.2]⟩
            exact absurd (hceq ▸ htail) hnd.1
          · rw [if_neg hcovh]
      · intro hnone
        have hnotail : ¬ ∃ c1 ∈ cells, c1.1 ≤ r ∧ r < c1.1 + N ∧ c1.2 ≤ c ∧ c < c1.2 + N := by
          rintro ⟨c1, hc1m, hcov1⟩
          exact hnone ⟨c1, List.mem_cons_of_mem cell hc1m, hcov1⟩
        have hcovh : ¬ (cell.1 ≤ r ∧ r < cell.1 + N ∧ cell.2 ≤ c ∧ c < cell.2 + N) :=
          fun hcv => hnone ⟨cell, List.mem_cons_self cell cells, hcv⟩
        rw [hmid.2 hnotail, hmident, if_neg hcovh]

/-! ### Assembling `multiply_tile` -/

theorem mem_pairs_flatten {c0 : Nat × Nat} (l1 l2 : List Nat)
    (h : c0 ∈ (l1.map (fun it => l2.map (fun kt => ((it, kt) : Nat × Nat)))).flatten) :
    c0.1 ∈ l1 ∧ c0.2 ∈ l2 := by
  obtain ⟨row, hrow, hc0⟩ := List.mem_flatten.mp h
  obtain ⟨it, hit, hieq⟩ := List.mem_map.mp hrow
  subst hieq
  obtain ⟨kt, hkt, hkeq⟩ := List.mem_map.mp hc0
  subst hkeq
  exact ⟨hit, hkt⟩

theorem pairs_flatten_mem (l1 l2 : List Nat) (x y : Nat) (hx : x ∈ l1) (hy : y ∈ l2) :
    ((x, y) : Nat × Nat) ∈ (l1.map (fun it => l2.map (fun kt => ((it, kt) : Nat × Nat)))).flatten := by
  apply List.mem_flatten.mpr
  exact ⟨l2.map (fun kt => ((x, kt) : Nat × Nat)),
    List.mem_map.mpr ⟨x, hx, rfl⟩, List.mem_map.mpr ⟨y, hy, rfl⟩⟩

theorem pairs_flatten_nodup (l1 l2 : List Nat) (h1 : l1.Nodup) (h2 : l2.Nodup) :
    ((l1.map (fun it => l2.map (fun kt => ((it, kt) : Nat × Nat)))).flatten).Nodup := by
  apply List.nodup_flatten.mpr
  constructor
  · intro row hrow
    obtain ⟨it, hit, hieq⟩ := List.mem_map.mp hrow
    subst hieq
    exact h2.map (fun x y hxy => ((Prod.mk.injEq it x it y).mp hxy).2)
  · apply List.pairwise_map.mpr
    apply List.Pairwise.imp ?_ h1
    intro a b hab p hpa hpb
    obtain ⟨x, _, hxeq⟩ := List.mem_map.mp hpa
    obtain ⟨y, _, hyeq⟩ := List.mem_map.mp hpb
    rw [← hxeq] at hyeq
    exact hab ((Prod.mk.injEq a x b y).mp hyeq.symm).1

theorem tileIndices_nodup (bound N : Nat) (hN : 0 < N) : (tileIndices bound N).Nodup := by
  unfold tileIndices
  exact (List.nodup_range _).map (fun a b hab => Nat.eq_of_mul_eq_mul_right hN hab)

/-- The product against padded operands agrees with the product of the
originals on every original cell: the padded stripes contribute zeros. -/
theorem prodEntry_padded (m1 m2 : Matrix) (nx1 ny1 nx2 ny2 : Nat)
    (hsh : m1.m_ncol = m2.m_nrow) (hcols : m1.m_ncol + ny1 = m2.m_nrow + nx2)
    (r c : Nat) (hr : r < m1.m_nrow) (hc : c < m2.m_ncol) :
    prodEntry (m1.m_ncol + ny1)
      (Matrix.mk (m1.m_nrow + nx1) (m1.m_ncol + ny1)
        (tab2 (m1.m_nrow + nx1) (m1.m_ncol + ny1)
          (fun i j => if m1.m_nrow ≤ i ∨ m1.m_ncol ≤ j then 0 else m1.entry i j)))
      (Matrix.mk (m2.m_nrow + nx2) (m2.m_ncol + ny2)
        (tab2 (m2.m_nrow + nx2) (m2.m_ncol + ny2)
          (fun i j => if m2.m_nrow ≤ i ∨ m2.m_ncol ≤ j then 0 else m2.entry i j)))
      r c
      = prodEntry m1.m_ncol m1 m2 r c := by
  unfold prodEntry
  rw [List.range_add, List.map_append, List.sum_append]
  have hfirst : (List.range m1.m_ncol).map (fun j =>
      (Matrix.mk (m1.m_nrow + nx1) (m1.m_ncol + ny1)
        (tab2 (m1.m_nrow + nx1) (m1.m_ncol + ny1)
          (fun i j => if m1.m_nrow ≤ i ∨ m1.m_ncol ≤ j then 0 else m1.entry i j))).entry r j
      * (Matrix.mk (m2.m_nrow + nx2) (m2.m_ncol + ny2)
        (tab2 (m2.m_nrow + nx2) (m2.m_ncol + ny2)
          (fun i j => if m2.m_nrow ≤ i ∨ m2.m_ncol ≤ j then 0 else m2.entry i j))).entry j c)
      = (List.range m1.m_ncol).map (fun j => m1.entry r j * m2.entry j c) := by
    apply List.map_congr_left
    intro j hj
    have hj2 : j < m1.m_ncol := List.mem_range.mp hj
    rw [tabMatrix_entry _ _ _ r j (by omega) (by omega),
      tabMatrix_entry _ _ _ j c (by omega) (by omega),
      if_neg (by push_neg; omega), if_neg (by push_neg; omega)]
  have hzero : ((List.range ny1).map (fun x =>
      (Matrix.mk (m1.m_nrow + nx1) (m1.m_ncol + ny1)
        (tab2 (m1.m_nrow + nx1) (m1.m_ncol + ny1)
          (fun i j => if m1.m_nrow ≤ i ∨ m1.m_ncol ≤ j then 0 else m1.entry i j))).entry r (m1.m_ncol + x)
      * (Matrix.mk (m2.m_nrow + nx2) (m2.m_ncol + ny2)
        (tab2 (m2.m_nrow + nx2) (m2.m_ncol + ny2)
          (fun i j => if m2.m_nrow ≤ i ∨ m2.m_ncol ≤ j then 0 else m2.entry i j))).entry (m1.m_ncol + x) c)).sum
      = 0 := by
    apply List.sum_eq_zero
    intro q hq
    obtain ⟨x, hx, hxeq⟩ := List.mem_map.mp hq
    have hx2 : x < ny1 := List.mem_range.mp hx
    rw [← hxeq, tabMatrix_entry _ _ _ r (m1.m_ncol + x) (by omega) (by omega),
      if_pos (Or.inr (Nat.le_add_right _ _)), zero_mul]
  rw [List.map_map]
  have hmap2 : (List.range ny1).map ((fun j =>
      (Matrix.mk (m1.m_nrow + nx1) (m1.m_ncol + ny1)
        (tab2 (m1.m_nrow + nx1) (m1.m_ncol + ny1)
          (fun i j => if m1.m_nrow ≤ i ∨ m1.m_ncol ≤ j then 0 else m1.entry i j))).entry r j
      * (Matrix.mk (m2.m_nrow + nx2) (m2.m_ncol + ny2)
        (tab2 (m2.m_nrow + nx2) (m2.m_ncol + ny2)
          (fun i j => if m2.m_nrow ≤ i ∨ m2.m_ncol ≤ j then 0 else m2.entry i j))).entry j c)
        ∘ (fun x => m1.m_ncol + x))
      = (List.range ny1).map (fun x =>
      (Matrix.mk (m1.m_nrow + nx1) (m1.m_ncol + ny1)
        (tab2 (m1.m_nrow + nx1) (m1.m_ncol + ny1)
          (fun i j => if m1.m_nrow ≤ i ∨ m1.m_ncol ≤ j then 0 else m1.entry i j))).entry r (m1.m_ncol + x)
      * (Matrix.mk (m2.m_nrow + nx2) (m2.m_ncol + ny2)
        (tab2 (m2.m_nrow + nx2) (m2.m_ncol + ny2)
          (fun i j => if m2.m_nrow ≤ i ∨ m2.m_ncol ≤ j then 0 else m2.entry i j))).entry (m1.m_ncol + x) c) := rfl
  rw [hmap2, hzero, add_zero, hfirst]

/-- `multiply_tile` on well-formed compatible operands computes, for any tile
size at least 1, exactly the row-major product matrix. -/
theorem multiply_tile_ok (m1 m2 : Matrix) (h1 : m1.wf) (h2 : m2.wf)
    (hsh : m1.m_ncol = m2.m_nrow) (t : Nat) (ht : 1 ≤ t) :
    multiply_tile m1 m2 t
      = Except.ok (Matrix.mk m1.m_nrow m2.m_ncol
          (tab2 m1.m_nrow m2.m_ncol (prodEntry m1.m_ncol m1 m2))) := by
  have hN : 0 < t := ht
  have hple1 := pad_roundup m1.m_nrow t hN
  have hple2 := pad_roundup m1.m_ncol t hN
  have hple3 := pad_roundup m2.m_nrow t hN
  have hple4 := pad_roundup m2.m_ncol t hN
  simp only [multiply_tile, validate_ok hsh, ok_bind, padded_ok m1 h1, padded_ok m2 h2,
    Matrix.ofSize]
  generalize hR1 : ((m1.m_nrow / t) + (if m1.m_nrow % t ≠ 0 then 1 else 0)) * t = R1
  generalize hR2 : ((m1.m_ncol / t) + (if m1.m_ncol % t ≠ 0 then 1 else 0)) * t = R2
  generalize hR3 : ((m2.m_nrow / t) + (if m2.m_nrow % t ≠ 0 then 1 else 0)) * t = R3
  generalize hR4 : ((m2.m_ncol / t) + (if m2.m_ncol % t ≠ 0 then 1 else 0)) * t = R4
  rw [hR1] at hple1
  rw [hR2] at hple2
  rw [hR3] at hple3
  rw [hR4] at hple4
  rw [Nat.add_sub_cancel' hple1, Nat.add_sub_cancel' hple2, Nat.add_sub_cancel' hple3,
    Nat.add_sub_cancel' hple4]
  rw [foldlM_nested_pairs]
  have hRR : R2 = R3 := by rw [← hR2, ← hR3, hsh]
  obtain ⟨q1e, hq1e⟩ : ∃ q, R1 = q * t := ⟨_, hR1.symm⟩
  obtain ⟨q2e, hq2e⟩ : ∃ q, R2 = q * t := ⟨_, hR2.symm⟩
  obtain ⟨q4e, hq4e⟩ : ∃ q, R4 = q * t := ⟨_, hR4.symm⟩
  obtain ⟨stF, hfold, hf1, hf2, hf3, hfent⟩ := grid_fold_ok
    (Matrix.mk R1 R2 (tab2 R1 R2
      (fun i j => if m1.m_nrow ≤ i ∨ m1.m_ncol ≤ j then 0 else m1.entry i j)))
    (Matrix.mk R3 R4 (tab2 R3 R4
      (fun i j => if m2.m_nrow ≤ i ∨ m2.m_ncol ≤ j then 0 else m2.entry i j)))
    t q2e hN (tabMatrix_wf _ _ _) (tabMatrix_wf _ _ _) hRR hq2e
    (((tileIndices R1 t).map (fun it => (tileIndices R4 t).map
      (fun kt => ((it, kt) : Nat × Nat)))).flatten)
    (fun c0 hc0 => by
      obtain ⟨hm1, hm2⟩ := mem_pairs_flatten _ _ hc0
      have hb1 := tileIndices_bound q1e t c0.1 hN (by rw [← hq1e]; exact hm1)
      have hb2 := tileIndices_bound q4e t c0.2 hN (by rw [← hq4e]; exact hm2)
      obtain ⟨a, _, ha⟩ := hb1.2
      obtain ⟨b2, _, hb2e⟩ := hb2.2
      refine ⟨⟨a, ha⟩, ?_, ⟨b2, hb2e⟩, ?_⟩
      · show c0.1 + t ≤ R1
        rw [hq1e]
        exact hb1.1
      · show c0.2 + t ≤ R4
        rw [hq4e]
        exact hb2.1)
    (pairs_flatten_nodup _ _ (tileIndices_nodup R1 t hN) (tileIndices_nodup R4 t hN))
    ((Tiler.ofSize t, Block.ofSize t, Matrix.mk R1 R4 (List.replicate (R1 * R4) 0))
      : Tiler × Block × Matrix)
    rfl rfl rfl (List.length_replicate _ _) (List.length_replicate _ _) rfl
    (List.length_replicate _ _) rfl rfl (List.length_replicate _ _)
  rw [hfold, ok_bind]
  have hub1 : R1 - m1.m_nrow ≤ stF.2.2.m_nrow := by
    rw [hf1]
    show R1 - m1.m_nrow ≤ R1
    exact Nat.sub_le _ _
  have hub2 : R4 - m2.m_ncol ≤ stF.2.2.m_ncol := by
    rw [hf2]
    show R4 - m2.m_ncol ≤ R4
    exact Nat.sub_le _ _
  rw [unpad_ok stF.2.2 hf3 (R1 - m1.m_nrow) (R4 - m2.m_ncol) hub1 hub2, ok_bind]
  have hd1 : stF.2.2.m_nrow - (R1 - m1.m_nrow) = m1.m_nrow := by
    rw [hf1]
    show R1 - (R1 - m1.m_nrow) = m1.m_nrow
    omega
  have hd2 : stF.2.2.m_ncol - (R4 - m2.m_ncol) = m2.m_ncol := by
    rw [hf2]
    show R4 - (R4 - m2.m_ncol) = m2.m_ncol
    omega
  rw [hd1, hd2]
  show Except.ok (Matrix.mk m1.m_nrow m2.m_ncol
      (tab2 m1.m_nrow m2.m_ncol (fun i j => stF.2.2.entry i j)))
    = Except.ok (Matrix.mk m1.m_nrow m2.m_ncol
      (tab2 m1.m_nrow m2.m_ncol (prodEntry m1.m_ncol m1 m2)))
  apply ok_mk_congr_buffer
  apply tab2_congr
  intro i him j hjm
  show stF.2.2.entry i j = prodEntry m1.m_ncol m1 m2 i j
  have hiR : i < R1 := Nat.lt_of_lt_of_le him hple1
  have hjR : j < R4 := Nat.lt_of_lt_of_le hjm hple4
  have hmem : (((i / t) * t, (j / t) * t) : Nat × Nat)
      ∈ ((tileIndices R1 t).map (fun it => (tileIndices R4 t).map
        (fun kt => ((it, kt) : Nat × Nat)))).flatten := by
    apply pairs_flatten_mem
    · rw [hq1e, tileIndices_eq q1e t hN]
      exact List.mem_map.mpr ⟨i / t, List.mem_range.mpr
        ((Nat.div_lt_iff_lt_mul hN).mpr (by rw [← hq1e]; exact hiR)), rfl⟩
    · rw [hq4e, tileIndices_eq q4e t hN]
      exact List.mem_map.mpr ⟨j / t, List.mem_range.mpr
        ((Nat.div_lt_iff_lt_mul hN).mpr (by rw [← hq4e]; exact hjR)), rfl⟩
  have hcsi := cover_self t i hN
  have hcsj := cover_self t j hN
  have hcovered := (hfent i j (by show i < R1; exact hiR) (by show j < R4; exact hjR)).1
    ⟨((i / t) * t, (j / t) * t), hmem, hcsi.1, hcsi.2, hcsj.1, hcsj.2⟩
  rw [hcovered]
  have hzero : (((Tiler.ofSize t, Block.ofSize t,
      Matrix.mk R1 R4 (List.replicate (R1 * R4) 0)) : Tiler × Block × Matrix)).2.2.entry i j
      = 0 := getD_replicate _ _
  rw [hzero, zero_add]
  have hcols : m1.m_ncol + (R2 - m1.m_ncol) = m2.m_nrow + (R3 - m2.m_nrow) := by
    rw [Nat.add_sub_cancel' hple2, Nat.add_sub_cancel' hple3]
    exact hRR
  have hp := prodEntry_padded m1 m2 (R1 - m1.m_nrow) (R2 - m1.m_ncol) (R3 - m2.m_nrow)
    (R4 - m2.m_ncol) hsh hcols i j him hjm
  rw [Nat.add_sub_cancel' hple1, Nat.add_sub_cancel' hple2, Nat.add_sub_cancel' hple3,
    Nat.add_sub_cancel' hple4] at hp
  exact hp

/-! ### Error paths of the three strategies -/

theorem multiply_naive_error (A B : Matrix) (h : A.m_ncol ≠ B.m_nrow) :
    multiply_naive A B = Except.error MatError.shapeMismatch := by
  simp only [multiply_naive, validate_error h, error_bind]

theorem multiply_mkl_error (A B : Matrix) (h : A.m_ncol ≠ B.m_nrow) :
    multiply_mkl A B = Except.error MatError.shapeMismatch := by
  simp only [multiply_mkl, validate_error h, error_bind]

theorem multiply_mkl_ok (A B : Matrix) (h : A.m_ncol = B.m_nrow) :
    multiply_mkl A B = Except.ok (cblas_dgemm A B) := by
  simp only [multiply_mkl, validate_ok h, ok_bind]
  rfl

theorem multiply_tile_error (A B : Matrix) (t : Nat) (h : A.m_ncol ≠ B.m_nrow) :
    multiply_tile A B t = Except.error MatError.shapeMismatch := by
  simp only [multiply_tile, validate_error h, error_bind]

/-! ### The nested-rows constructor -/

theorem fromNested_wf (ls : List (List ℚ)) (c0 : Nat)
    (hu : ∀ row ∈ ls, row.length = c0) (NM : Matrix)
    (hN : Matrix.fromNested ls = some NM) : NM.wf := by
  match ls, hN with
  | r0 :: rest, hN =>
    have hN2 : NM = Matrix.mk (r0 :: rest).length r0.length (r0 :: rest).flatten := by
      rw [Matrix.fromNested] at hN
      exact (Option.some.injEq _ _).mp hN.symm
    subst hN2
    show ((r0 :: rest).flatten).length = (r0 :: rest).length * r0.length
    rw [List.length_flatten]
    have hmap : (r0 :: rest).map List.length
        = (r0 :: rest).map (fun _ => r0.length) := by
      apply List.map_congr_left
      intro row hrow
      rw [hu row hrow, hu r0 (List.mem_cons_self r0 rest)]
    rw [hmap, List.map_const', List.sum_replicate, smul_eq_mul]

/-! ### Claims -/

/-- C1: for all well-formed matrices with compatible shapes and every tile
size at least 1 — dividing the dimensions or not, exceeding them or not —
`multiply_tile` returns exactly the matrix `multiply_naive` returns, under
exact arithmetic. -/
theorem claim_C1 (A B : Matrix) (hA : A.wf) (hB : B.wf) (hsh : A.m_ncol = B.m_nrow)
    (t : Nat) (ht : 1 ≤ t) :
    multiply_tile A B t = multiply_naive A B := by
  rw [multiply_tile_ok A B hA hB hsh t ht, multiply_naive_ok A B hA hB hsh]

theorem claim_C1_witness :
    (Matrix.mk 2 2 [1, 2, 3, 4]).wf ∧ (Matrix.mk 2 2 [5, 6, 7, 8]).wf ∧
    (Matrix.mk 2 2 [1, 2, 3, 4]).m_ncol = (Matrix.mk 2 2 [5, 6, 7, 8]).m_nrow ∧
    1 ≤ 3 ∧
    multiply_tile (Matrix.mk 2 2 [1, 2, 3, 4]) (Matrix.mk 2 2 [5, 6, 7, 8]) 3
      = multiply_naive (Matrix.mk 2 2 [1, 2, 3, 4]) (Matrix.mk 2 2 [5, 6, 7, 8]) :=
  ⟨by decide, by decide, rfl, by decide,
    claim_C1 (Matrix.mk 2 2 [1, 2, 3, 4]) (Matrix.mk 2 2 [5, 6, 7, 8])
      (by decide) (by decide) rfl 3 (by decide)⟩

/-- C2: `multiply_naive` on compatible well-formed operands returns a
`lhs.rows × rhs.cols` matrix whose cell `(i,k)` is the sum over
`j = 0, ..., n-1`, in source order, of `lhs(i,j) * rhs(j,k)` (`prodEntry` is
that ordered list sum). -/
theorem claim_C2 (A B : Matrix) (hA : A.wf) (hB : B.wf) (hsh : A.m_ncol = B.m_nrow) :
    ∃ R, multiply_naive A B = Except.ok R ∧
      R.m_nrow = A.m_nrow ∧ R.m_ncol = B.m_ncol ∧ R.wf ∧
      ∀ i k, i < A.m_nrow → k < B.m_ncol →
        R.entry i k = ((List.range A.m_ncol).map
          (fun j => A.entry i j * B.entry j k)).sum := by
  refine ⟨Matrix.mk A.m_nrow B.m_ncol (tab2 A.m_nrow B.m_ncol (prodEntry A.m_ncol A B)),
    multiply_naive_ok A B hA hB hsh, rfl, rfl, tabMatrix_wf _ _ _, ?_⟩
  intro i k hi hk
  rw [tabMatrix_entry A.m_nrow B.m_ncol _ i k hi hk]
  rfl

theorem claim_C2_witness :
    (Matrix.mk 2 2 [1, 2, 3, 4]).wf ∧ (Matrix.mk 2 2 [5, 6, 7, 8]).wf ∧
    (Matrix.mk 2 2 [1, 2, 3, 4]).m_ncol = (Matrix.mk 2 2 [5, 6, 7, 8]).m_nrow ∧
    ∃ R, multiply_naive (Matrix.mk 2 2 [1, 2, 3, 4]) (Matrix.mk 2 2 [5, 6, 7, 8])
        = Except.ok R ∧
      R.m_nrow = 2 ∧ R.m_ncol = 2 ∧ R.wf ∧
      ∀ i k, i < 2 → k < 2 →
        R.entry i k = ((List.range 2).map
          (fun j => (Matrix.mk 2 2 [1, 2, 3, 4]).entry i j
            * (Matrix.mk 2 2 [5, 6, 7, 8]).entry j k)).sum :=
  ⟨by decide, by decide, rfl,
    claim_C2 (Matrix.mk 2 2 [1, 2, 3, 4]) (Matrix.mk 2 2 [5, 6, 7, 8])
      (by decide) (by decide) rfl⟩

/-- C3: `multiply_tile` always returns a matrix of shape
`A.rows × B.cols`, whether or not the tile size divides the dimensions. -/
theorem claim_C3 (A B : Matrix) (hA : A.wf) (hB : B.wf) (hsh : A.m_ncol = B.m_nrow)
    (t : Nat) (ht : 1 ≤ t) :
    ∃ R, multiply_tile A B t = Except.ok R ∧
      R.m_nrow = A.m_nrow ∧ R.m_ncol = B.m_ncol :=
  ⟨Matrix.mk A.m_nrow B.m_ncol (tab2 A.m_nrow B.m_ncol (prodEntry A.m_ncol A B)),
    multiply_tile_ok A B hA hB hsh t ht, rfl, rfl⟩

theorem claim_C3_witness :
    (Matrix.mk 2 3 [1, 2, 3, 4, 5, 6]).wf ∧ (Matrix.mk 3 2 [1, 0, 0, 1, 1, 1]).wf ∧
    (Matrix.mk 2 3 [1, 2, 3, 4, 5, 6]).m_ncol = (Matrix.mk 3 2 [1, 0, 0, 1, 1, 1]).m_nrow ∧
    1 ≤ 2 ∧
    ∃ R, multiply_tile (Matrix.mk 2 3 [1, 2, 3, 4, 5, 6])
        (Matrix.mk 3 2 [1, 0, 0, 1, 1, 1]) 2 = Except.ok R ∧
      R.m_nrow = 2 ∧ R.m_ncol = 2 :=
  ⟨by decide, by decide, rfl, by decide,
    claim_C3 (Matrix.mk 2 3 [1, 2, 3, 4, 5, 6]) (Matrix.mk 3 2 [1, 0, 0, 1, 1, 1])
      (by decide) (by decide) rfl 2 (by decide)⟩

/-- C4: zero-padding a well-formed matrix by `x` rows and `y` columns and then
unpadding by the same amounts reproduces it exactly. -/
theorem claim_C4 (M : Matrix) (hM : M.wf) (x y : Nat) :
    ∃ P, M.padded x y = Except.ok P ∧ P.unpad x y = Except.ok M := by
  refine ⟨Matrix.mk (M.m_nrow + x) (M.m_ncol + y)
    (tab2 (M.m_nrow + x) (M.m_ncol + y)
      (fun i j => if M.m_nrow ≤ i ∨ M.m_ncol ≤ j then 0 else M.entry i j)),
    padded_ok M hM x y, ?_⟩
  rw [unpad_ok _ (tabMatrix_wf _ _ _) x y
    (by show x ≤ M.m_nrow + x; omega) (by show y ≤ M.m_ncol + y; omega)]
  have hd1 : (Matrix.mk (M.m_nrow + x) (M.m_ncol + y)
      (tab2 (M.m_nrow + x) (M.m_ncol + y)
        (fun i j => if M.m_nrow ≤ i ∨ M.m_ncol ≤ j then 0 else M.entry i j))).m_nrow - x
      = M.m_nrow := by
    show M.m_nrow + x - x = M.m_nrow
    omega
  have hd2 : (Matrix.mk (M.m_nrow + x) (M.m_ncol + y)
      (tab2 (M.m_nrow + x) (M.m_ncol + y)
        (fun i j => if M.m_nrow ≤ i ∨ M.m_ncol ≤ j then 0 else M.entry i j))).m_ncol - y
      = M.m_ncol := by
    show M.m_ncol + y - y = M.m_ncol
    omega
  rw [hd1, hd2]
  have hbuf : tab2 M.m_nrow M.m_ncol
      (fun i j => (Matrix.mk (M.m_nrow + x) (M.m_ncol + y)
        (tab2 (M.m_nrow + x) (M.m_ncol + y)
          (fun i j => if M.m_nrow ≤ i ∨ M.m_ncol ≤ j then 0 else M.entry i j))).entry i j)
      = M.m_buffer := by
    rw [@tab2_congr M.m_nrow M.m_ncol
      (fun i j => (Matrix.mk (M.m_nrow + x) (M.m_ncol + y)
        (tab2 (M.m_nrow + x) (M.m_ncol + y)
          (fun i j => if M.m_nrow ≤ i ∨ M.m_ncol ≤ j then 0 else M.entry i j))).entry i j)
      (fun i j => M.entry i j)
      (fun i hi j hj => by
        show (Matrix.mk (M.m_nrow + x) (M.m_ncol + y)
          (tab2 (M.m_nrow + x) (M.m_ncol + y)
            (fun i j => if M.m_nrow ≤ i ∨ M.m_ncol ≤ j then 0 else M.entry i j))).entry i j
          = M.entry i j
        rw [tabMatrix_entry (M.m_nrow + x) (M.m_ncol + y) _ i j (by omega) (by omega),
          if_neg (by push_neg; omega)])]
    exact (eq_tab2_of_getD hM (fun i hi j hj => rfl)).symm
  rw [hbuf]

theorem claim_C4_witness :
    (Matrix.mk 2 2 [1, 2, 3, 4]).wf ∧
    ∃ P, (Matrix.mk 2 2 [1, 2, 3, 4]).padded 1 2 = Except.ok P ∧
      P.unpad 1 2 = Except.ok (Matrix.mk 2 2 [1, 2, 3, 4]) :=
  ⟨by decide, claim_C4 (Matrix.mk 2 2 [1, 2, 3, 4]) (by decide) 1 2⟩

/-- C5: `validate_multiplication` fails with ShapeMismatch exactly when
`lhs.cols != rhs.rows`, and each of the three strategies surfaces that error
with no result exactly on mismatched shapes (on matching well-formed shapes
all three return a result). -/
theorem claim_C5 (A B : Matrix) (hA : A.wf) (hB : B.wf) (t : Nat) (ht : 1 ≤ t) :
    (validate_multiplication A B = Except.error MatError.shapeMismatch
      ↔ A.m_ncol ≠ B.m_nrow) ∧
    (A.m_ncol ≠ B.m_nrow →
      multiply_naive A B = Except.error MatError.shapeMismatch ∧
      multiply_mkl A B = Except.error MatError.shapeMismatch ∧
      multiply_tile A B t = Except.error MatError.shapeMismatch) ∧
    (A.m_ncol = B.m_nrow →
      (∃ R, multiply_naive A B = Except.ok R) ∧
      (∃ R, multiply_mkl A B = Except.ok R) ∧
      (∃ R, multiply_tile A B t = Except.ok R)) := by
  refine ⟨⟨?_, validate_error⟩, ?_, ?_⟩
  · intro hv
    by_cases h : A.m_ncol = B.m_nrow
    · rw [validate_ok h] at hv
      exact absurd hv (by simp)
    · exact h
  · intro h
    exact ⟨multiply_naive_error A B h, multiply_mkl_error A B h, multiply_tile_error A B t h⟩
  · intro h
    exact ⟨⟨_, multiply_naive_ok A B hA hB h⟩, ⟨_, multiply_mkl_ok A B h⟩,
      ⟨_, multiply_tile_ok A B hA hB h t ht⟩⟩

theorem claim_C5_witness :
    (Matrix.mk 2 3 [1, 2, 3, 4, 5, 6]).wf ∧ (Matrix.mk 2 2 [1, 2, 3, 4]).wf ∧ 1 ≤ 1 ∧
    ((validate_multiplication (Matrix.mk 2 3 [1, 2, 3, 4, 5, 6]) (Matrix.mk 2 2 [1, 2, 3, 4])
        = Except.error MatError.shapeMismatch
      ↔ (Matrix.mk 2 3 [1, 2, 3, 4, 5, 6]).m_ncol ≠ (Matrix.mk 2 2 [1, 2, 3, 4]).m_nrow) ∧
    ((Matrix.mk 2 3 [1, 2, 3, 4, 5, 6]).m_ncol ≠ (Matrix.mk 2 2 [1, 2, 3, 4]).m_nrow →
      multiply_naive (Matrix.mk 2 3 [1, 2, 3, 4, 5, 6]) (Matrix.mk 2 2 [1, 2, 3, 4])
        = Except.error MatError.shapeMismatch ∧
      multiply_mkl (Matrix.mk 2 3 [1, 2, 3, 4, 5, 6]) (Matrix.mk 2 2 [1, 2, 3, 4])
        = Except.error MatError.shapeMismatch ∧
      multiply_tile (Matrix.mk 2 3 [1, 2, 3, 4, 5, 6]) (Matrix.mk 2 2 [1, 2, 3, 4]) 1
        = Except.error MatError.shapeMismatch) ∧
    ((Matrix.mk 2 3 [1, 2, 3, 4, 5, 6]).m_ncol = (Matrix.mk 2 2 [1, 2, 3, 4]).m_nrow →
      (∃ R, multiply_naive (Matrix.mk 2 3 [1, 2, 3, 4, 5, 6]) (Matrix.mk 2 2 [1, 2, 3, 4])
        = Except.ok R) ∧
      (∃ R, multiply_mkl (Matrix.mk 2 3 [1, 2, 3, 4, 5, 6]) (Matrix.mk 2 2 [1, 2, 3, 4])
        = Except.ok R) ∧
      (∃ R, multiply_tile (Matrix.mk 2 3 [1, 2, 3, 4, 5, 6]) (Matrix.mk 2 2 [1, 2, 3, 4]) 1
        = Except.ok R))) :=
  ⟨by decide, by decide, by decide,
    claim_C5 (Matrix.mk 2 3 [1, 2, 3, 4, 5, 6]) (Matrix.mk 2 2 [1, 2, 3, 4])
      (by decide) (by decide) 1 (by decide)⟩

/-- C6 counterexample: on the well-formed 2×3 matrix, pair access at
`(0, 5)` has column index `5 ≥ 3 = cols`, yet it succeeds (returning the
element at flat position `0*3 + 5`, which is cell `(1,2)`), because the
checked access only tests the flat index against the buffer length. -/
theorem claim_C6_counterexample :
    (Matrix.mk 2 3 [1, 2, 3, 4, 5, 6]).wf ∧
    (Matrix.mk 2 3 [1, 2, 3, 4, 5, 6]).m_ncol ≤ 5 ∧
    (Matrix.mk 2 3 [1, 2, 3, 4, 5, 6]).at2 0 5 = Except.ok 6 ∧
    (Matrix.mk 2 3 [1, 2, 3, 4, 5, 6]).at2 0 5
      ≠ Except.error MatError.indexOutOfRange := by
  refine ⟨by decide, by decide, rfl, ?_⟩
  intro h
  rw [show (Matrix.mk 2 3 [1, 2, 3, 4, 5, 6]).at2 0 5 = Except.ok 6 from rfl] at h
  exact Except.noConfusion h

/-- C6 amended: on a well-formed matrix, pair access `M(row, col)` succeeds
(returning the buffer value at flat position `row*cols + col`) exactly when
that flat position is below `rows*cols`, and fails with `IndexOutOfRange`
otherwise — it is not checked against `row < rows` and `col < cols`
separately; flat access `M(idx)` fails exactly when `idx ≥ rows*cols`. -/
theorem claim_C6_amended (M : Matrix) (hM : M.wf) (row col idx : Nat) :
    (row * M.m_ncol + col < M.m_nrow * M.m_ncol →
      M.at2 row col = Except.ok (M.m_buffer.getD (row * M.m_ncol + col) 0)) ∧
    (M.m_nrow * M.m_ncol ≤ row * M.m_ncol + col →
      M.at2 row col = Except.error MatError.indexOutOfRange) ∧
    (idx < M.m_nrow * M.m_ncol → M.atF idx = Except.ok (M.m_buffer.getD idx 0)) ∧
    (M.m_nrow * M.m_ncol ≤ idx → M.atF idx = Except.error MatError.indexOutOfRange) := by
  refine ⟨?_, ?_, ?_, ?_⟩
  · intro h
    exact Matrix.atF_ok M _ (by rw [hM]; exact h)
  · intro h
    exact Matrix.atF_error M _ (by rw [hM]; exact h)
  · intro h
    exact Matrix.atF_ok M _ (by rw [hM]; exact h)
  · intro h
    exact Matrix.atF_error M _ (by rw [hM]; exact h)

theorem claim_C6_amended_witness :
    (Matrix.mk 2 3 [1, 2, 3, 4, 5, 6]).wf ∧
    ((0 * 3 + 5 < 2 * 3 →
      (Matrix.mk 2 3 [1, 2, 3, 4, 5, 6]).at2 0 5
        = Except.ok ([(1:ℚ), 2, 3, 4, 5, 6].getD (0 * 3 + 5) 0)) ∧
    (2 * 3 ≤ 0 * 3 + 5 →
      (Matrix.mk 2 3 [1, 2, 3, 4, 5, 6]).at2 0 5 = Except.error MatError.indexOutOfRange) ∧
    (7 < 2 * 3 →
      (Matrix.mk 2 3 [1, 2, 3, 4, 5, 6]).atF 7
        = Except.ok ([(1:ℚ), 2, 3, 4, 5, 6].getD 7 0)) ∧
    (2 * 3 ≤ 7 →
      (Matrix.mk 2 3 [1, 2, 3, 4, 5, 6]).atF 7 = Except.error MatError.indexOutOfRange)) :=
  ⟨by decide, claim_C6_amended (Matrix.mk 2 3 [1, 2, 3, 4, 5, 6]) (by decide) 0 5 7⟩

/-- C7: the padding copy of a well-formed source has the enlarged dimensions,
copies the source on cells inside the source bounds and holds zero on every
padding cell. -/
theorem claim_C7 (M : Matrix) (hM : M.wf) (x y : Nat) :
    ∃ P, M.padded x y = Except.ok P ∧
      P.m_nrow = M.m_nrow + x ∧ P.m_ncol = M.m_ncol + y ∧
      ∀ i j, i < M.m_nrow + x → j < M.m_ncol + y →
        P.entry i j = if i < M.m_nrow ∧ j < M.m_ncol then M.entry i j else 0 := by
  refine ⟨Matrix.mk (M.m_nrow + x) (M.m_ncol + y)
    (tab2 (M.m_nrow + x) (M.m_ncol + y)
      (fun i j => if M.m_nrow ≤ i ∨ M.m_ncol ≤ j then 0 else M.entry i j)),
    padded_ok M hM x y, rfl, rfl, ?_⟩
  intro i j hi hj
  rw [tabMatrix_entry (M.m_nrow + x) (M.m_ncol + y) _ i j hi hj]
  by_cases h : i < M.m_nrow ∧ j < M.m_ncol
  · rw [if_pos h, if_neg (by push_neg; omega)]
  · rw [if_neg h, if_pos (by omega)]

theorem claim_C7_witness :
    (Matrix.mk 2 2 [1, 2, 3, 4]).wf ∧
    ∃ P, (Matrix.mk 2 2 [1, 2, 3, 4]).padded 1 1 = Except.ok P ∧
      P.m_nrow = 2 + 1 ∧ P.m_ncol = 2 + 1 ∧
      ∀ i j, i < 2 + 1 → j < 2 + 1 →
        P.entry i j = if i < 2 ∧ j < 2
          then (Matrix.mk 2 2 [1, 2, 3, 4]).entry i j else 0 :=
  ⟨by decide, claim_C7 (Matrix.mk 2 2 [1, 2, 3, 4]) (by decide) 1 1⟩

/-- C8: every constructor establishes `buffer.length == rows*cols` — explicit
size, padding copy of a well-formed source, move (for both the new matrix,
when the source is well-formed, and the cleared source), and the nested-rows
conversion on uniform rows — and `unpad` (with removed amounts at most the
current dimensions) and checked element assignment maintain it. -/
theorem claim_C8 (M : Matrix) (hM : M.wf) (r c x y i j : Nat) (v : ℚ)
    (ls : List (List ℚ)) (c0 : Nat) (hu : ∀ row ∈ ls, row.length = c0)
    (hx : x ≤ M.m_nrow) (hy : y ≤ M.m_ncol) :
    (Matrix.ofSize r c).wf ∧
    (∀ P, M.padded x y = Except.ok P → P.wf) ∧
    (Matrix.moveFrom M).1.wf ∧
    (Matrix.moveFrom M).2.wf ∧
    (∀ NM, Matrix.fromNested ls = some NM → NM.wf) ∧
    (∀ U, M.unpad x y = Except.ok U → U.wf) ∧
    (∀ M2, M.set2 i j v = Except.ok M2 → M2.wf) := by
  refine ⟨Matrix.ofSize_wf r c, ?_, hM, ?_, ?_, ?_, ?_⟩
  · intro P hP
    rw [padded_ok M hM x y] at hP
    have hP2 := (Except.ok.injEq _ _).mp hP
    rw [← hP2]
    exact tabMatrix_wf _ _ _
  · show (List.replicate (M.m_nrow * M.m_ncol) (0 : ℚ)).length = M.m_nrow * M.m_ncol
    exact List.length_replicate _ _
  · intro NM hNM
    exact fromNested_wf ls c0 hu NM hNM
  · intro U hU
    rw [unpad_ok M hM x y hx hy] at hU
    have hU2 := (Except.ok.injEq _ _).mp hU
    rw [← hU2]
    exact tabMatrix_wf _ _ _
  · intro M2 hM2
    unfold Matrix.set2 Matrix.setF at hM2
    by_cases h : M.index i j < M.m_buffer.length
    · rw [if_pos h] at hM2
      have hM3 := (Except.ok.injEq _ _).mp hM2
      rw [← hM3]
      show (M.m_buffer.set (M.index i j) v).length = M.m_nrow * M.m_ncol
      rw [List.length_set]
      exact hM
    · rw [if_neg h] at hM2
      exact absurd hM2 (by simp)

theorem claim_C8_witness :
    (Matrix.mk 2 2 [1, 2, 3, 4]).wf ∧
    (∀ row ∈ [[(1:ℚ), 2], [3, 4], [5, 6]], row.length = 2) ∧
    1 ≤ (Matrix.mk 2 2 [1, 2, 3, 4]).m_nrow ∧ 1 ≤ (Matrix.mk 2 2 [1, 2, 3, 4]).m_ncol ∧
    ((Matrix.ofSize 3 4).wf ∧
    (∀ P, (Matrix.mk 2 2 [1, 2, 3, 4]).padded 1 1 = Except.ok P → P.wf) ∧
    (Matrix.moveFrom (Matrix.mk 2 2 [1, 2, 3, 4])).1.wf ∧
    (Matrix.moveFrom (Matrix.mk 2 2 [1, 2, 3, 4])).2.wf ∧
    (∀ NM, Matrix.fromNested [[(1:ℚ), 2], [3, 4], [5, 6]] = some NM → NM.wf) ∧
    (∀ U, (Matrix.mk 2 2 [1, 2, 3, 4]).unpad 1 1 = Except.ok U → U.wf) ∧
    (∀ M2, (Matrix.mk 2 2 [1, 2, 3, 4]).set2 0 1 9 = Except.ok M2 → M2.wf)) :=
  ⟨by decide, by decide, by decide, by decide,
    claim_C8 (Matrix.mk 2 2 [1, 2, 3, 4]) (by decide) 3 4 1 1 0 1 9
      [[(1:ℚ), 2], [3, 4], [5, 6]] 2 (by decide) (by decide) (by decide)⟩

/-- C9 counterexample: move-constructing from the 1×1 matrix `[5]` leaves the
source with a buffer holding one element (a zero), not an empty buffer: the
source code swaps in a zero-filled buffer of the full original extent. -/
theorem claim_C9_counterexample :
    (Matrix.moveFrom (Matrix.mk 1 1 [5])).1 = Matrix.mk 1 1 [5] ∧
    (Matrix.moveFrom (Matrix.mk 1 1 [5])).2.m_buffer = [0] ∧
    (Matrix.moveFrom (Matrix.mk 1 1 [5])).2.m_buffer ≠ [] := by
  refine ⟨rfl, rfl, by decide⟩

/-- C9 amended: after move-construction the new matrix has the source's
original dimensions and buffer contents, and the moved-from source is left
valid — it keeps its dimensions and its buffer is replaced by a zero-filled
buffer of length `rows*cols` (so the invariant still holds), which is
non-empty whenever the source had any cells. -/
theorem claim_C9_amended (M : Matrix) :
    (Matrix.moveFrom M).1 = M ∧
    (Matrix.moveFrom M).2.m_nrow = M.m_nrow ∧
    (Matrix.moveFrom M).2.m_ncol = M.m_ncol ∧
    (Matrix.moveFrom M).2.m_buffer = List.replicate (M.m_nrow * M.m_ncol) 0 ∧
    (Matrix.moveFrom M).2.wf := by
  refine ⟨rfl, rfl, rfl, rfl, ?_⟩
  show (List.replicate (M.m_nrow * M.m_ncol) (0 : ℚ)).length = M.m_nrow * M.m_ncol
  exact List.length_replicate _ _

/-- C10: the nested-rows constructor reads the first row unconditionally, so
a non-empty outer list is a precondition; on a non-empty uniform nested list
it builds the matrix with one row per inner list, the first row's length as
the column count and the row-major concatenation as the buffer, while the
empty outer list has no defined result. -/
theorem claim_C10 (ls : List (List ℚ)) (hne : ls ≠ [])
    (hu : ∀ row ∈ ls, row.length = (ls.head hne).length) :
    (∃ NM, Matrix.fromNested ls = some NM ∧ NM.m_nrow = ls.length
      ∧ NM.m_ncol = (ls.head hne).length ∧ NM.m_buffer = ls.flatten ∧ NM.wf)
    ∧ Matrix.fromNested [] = none := by
  refine ⟨?_, rfl⟩
  match ls, hne, hu with
  | r0 :: rest, _, hu =>
    refine ⟨Matrix.mk (r0 :: rest).length r0.length (r0 :: rest).flatten,
      rfl, rfl, rfl, rfl, ?_⟩
    exact fromNested_wf (r0 :: rest) r0.length hu _ rfl

theorem claim_C10_witness :
    ([[(1:ℚ), 2], [3, 4], [5, 6]] ≠ ([] : List (List ℚ))) ∧
    (∀ row ∈ [[(1:ℚ), 2], [3, 4], [5, 6]], row.length
      = (([[(1:ℚ), 2], [3, 4], [5, 6]]).head (by decide)).length) ∧
    ((∃ NM, Matrix.fromNested [[(1:ℚ), 2], [3, 4], [5, 6]] = some NM ∧
      NM.m_nrow = ([[(1:ℚ), 2], [3, 4], [5, 6]]).length ∧
      NM.m_ncol = (([[(1:ℚ), 2], [3, 4], [5, 6]]).head (by decide)).length ∧
      NM.m_buffer = ([[(1:ℚ), 2], [3, 4], [5, 6]]).flatten ∧ NM.wf)
    ∧ Matrix.fromNested ([] : List (List ℚ)) = none) :=
  ⟨by decide, by decide,
    claim_C10 [[(1:ℚ), 2], [3, 4], [5, 6]] (by decide) (by decide)⟩

end Hw4
